import Mathlib

/-!
Verification of the streaming transcript-to-annotation formatter
(`chat-parser`, TypeScript) of this repository.

The TypeScript source is shallowly embedded: each TS function becomes a Lean
definition of the same name (modulo Lean naming restrictions), JS strings are
modelled as Lean `String` (a list of characters; JS `.length` counts UTF-16
units, which agrees with character counts on the inputs considered here),
mutable state (the `staticLineNum` counter) becomes explicit state passing,
thrown-and-caught JS exceptions become `Option` results, and the external
`buildkite-agent annotate` invocation and console output become explicit
event values.  `JSON.parse` / `JSON.stringify` are modelled over a JSON value
type whose numbers are integers (floating-point numerals are out of scope;
none of the verified properties involve them).
-/

/-! ## JS string primitives

Models of the JavaScript string operations used by the source, defined over
the character list of a `String` so that they can be reasoned about directly.
-/

/-- JSON / JS whitespace characters relevant to the inputs considered. -/
def isJsWs (c : Char) : Bool :=
  c = ' ' || c = '\t' || c = '\n' || c = '\r'

/-- Model of JS `String.prototype.trim`. -/
def jsTrim (s : String) : String :=
  String.mk (((s.data.dropWhile isJsWs).reverse.dropWhile isJsWs).reverse)

/-- Model of JS `s.slice(0, n)`. -/
def jsTake (s : String) (n : Nat) : String := String.mk (s.data.take n)

/-- Model of JS `s.slice(n)`. -/
def jsDrop (s : String) (n : Nat) : String := String.mk (s.data.drop n)

/-- Model of JS `s.length` (character count). -/
def jsLength (s : String) : Nat := s.data.length

/-- Helper for `jsSplitNl`: split a character list at newline characters. -/
def splitNlChars : List Char → List (List Char)
  | [] => [[]]
  | c :: cs =>
    if c = '\n' then [] :: splitNlChars cs
    else match splitNlChars cs with
      | [] => [[c]]
      | t :: ts => (c :: t) :: ts

/-- Model of JS `s.split("\n")`. -/
def jsSplitNl (s : String) : List String := (splitNlChars s.data).map String.mk

/-- Model of JS `s.padStart(n, c)`. -/
def jsPadStart (s : String) (n : Nat) (c : Char) : String :=
  if n ≤ s.data.length then s
  else String.mk (List.replicate (n - s.data.length) c) ++ s

/-- Model of JS `s.padEnd(n, c)`. -/
def jsPadEnd (s : String) (n : Nat) (c : Char) : String :=
  if n ≤ s.data.length then s
  else s ++ String.mk (List.replicate (n - s.data.length) c)

/-- Model of JS `s.startsWith(p)` for a single-character pattern. -/
def jsStartsWithChar (s : String) (c : Char) : Bool :=
  match s.data with
  | c0 :: _ => c0 = c
  | [] => false

/-! ## JSON values

Model of the JS values produced by `JSON.parse` on the inputs of interest.
Numbers are modelled as integers (see the header comment). -/

/-- A JSON value.  Object fields are an ordered association list, matching JS
property insertion order. -/
inductive JValue where
  | null : JValue
  | bool (b : Bool) : JValue
  | num (n : Int) : JValue
  | str (s : String) : JValue
  | arr (elems : List JValue) : JValue
  | obj (fields : List (String × JValue)) : JValue

mutual
/-- Size measure used as parser fuel bound. -/
def sizeJ : JValue → Nat
  | .null => 1
  | .bool _ => 1
  | .num _ => 1
  | .str _ => 1
  | .arr es => 1 + sizeArr es
  | .obj fs => 1 + sizeObj fs
/-- Fuel bound for the remaining elements of an array. -/
def sizeArr : List JValue → Nat
  | [] => 0
  | v :: vs => 1 + sizeJ v + sizeArr vs
/-- Fuel bound for the remaining fields of an object. -/
def sizeObj : List (String × JValue) → Nat
  | [] => 0
  | (_, v) :: fs => 1 + sizeJ v + sizeObj fs
end

/-! ## `JSON.stringify` model -/

/-- Decimal digit character. -/
def digitCh : Nat → Char
  | 0 => '0'
  | 1 => '1'
  | 2 => '2'
  | 3 => '3'
  | 4 => '4'
  | 5 => '5'
  | 6 => '6'
  | 7 => '7'
  | 8 => '8'
  | 9 => '9'
  | _ => '*'

/-- Lowercase hexadecimal digit character (as produced by JS unicode escapes). -/
def hexCh : Nat → Char
  | 0 => '0'
  | 1 => '1'
  | 2 => '2'
  | 3 => '3'
  | 4 => '4'
  | 5 => '5'
  | 6 => '6'
  | 7 => '7'
  | 8 => '8'
  | 9 => '9'
  | 10 => 'a'
  | 11 => 'b'
  | 12 => 'c'
  | 13 => 'd'
  | 14 => 'e'
  | 15 => 'f'
  | _ => '*'

/-- Canonical decimal digits, fuel-indexed so that the definition is
structurally recursive (any `fuel > n` computes the digits of `n`). -/
def natDigitsAux : Nat → Nat → List Char
  | 0, _ => []
  | fuel + 1, n =>
    if n < 10 then [digitCh n]
    else natDigitsAux fuel (n / 10) ++ [digitCh (n % 10)]

/-- Canonical decimal digits of a natural number (most significant first). -/
def natDigits (n : Nat) : List Char := natDigitsAux (n + 1) n

/-- Model of JS `String(n)` for a natural number. -/
def jsNumToString (n : Nat) : String := String.mk (natDigits n)

/-- Decimal printing of an integer, as `JSON.stringify` renders integral
numbers. -/
def intChars (n : Int) : List Char :=
  if n < 0 then '-' :: natDigits n.natAbs else natDigits n.natAbs

/-- JS `JSON.stringify` string escaping of a single character: `"`, `\`,
backspace, form feed, newline, carriage return and tab use two-character
escapes, other control characters use `\u00xx`, everything else is literal. -/
def escapeChar (c : Char) : List Char :=
  if c = '"' then ['\\', '"']
  else if c = '\\' then ['\\', '\\']
  else if c = '\x08' then ['\\', 'b']
  else if c = '\x0c' then ['\\', 'f']
  else if c = '\n' then ['\\', 'n']
  else if c = '\r' then ['\\', 'r']
  else if c = '\t' then ['\\', 't']
  else if c.toNat < 32 then ['\\', 'u', '0', '0', hexCh (c.toNat / 16), hexCh (c.toNat % 16)]
  else [c]

/-- A JSON string literal: quote, escaped characters, quote. -/
def quoteChars (s : String) : List Char :=
  '"' :: (s.data.map escapeChar).flatten ++ ['"']

/-- Indentation emitted by `JSON.stringify(v, null, 2)` at nesting depth `d`. -/
def indChars (d : Nat) : List Char := List.replicate (2 * d) ' '

mutual
/-- Character output of `JSON.stringify(v, null, 2)` at nesting depth `d`.
`printItems`/`printFields` render the comma-separated members of a non-empty
array/object, one per line, at the members' depth. -/
def printChars : Nat → JValue → List Char
  | _, .null => "null".data
  | _, .bool true => "true".data
  | _, .bool false => "false".data
  | _, .num n => intChars n
  | _, .str s => quoteChars s
  | d, .arr es =>
    (match es with
     | [] => ['[', ']']
     | _ :: _ => '[' :: '\n' :: (printItems (d + 1) es ++ '\n' :: (indChars d ++ [']'])))
  | d, .obj fs =>
    (match fs with
     | [] => ['\x7b', '\x7d']
     | _ :: _ => '\x7b' :: '\n' :: (printFields (d + 1) fs ++ '\n' :: (indChars d ++ ['\x7d'])))
/-- Members of a non-empty array, comma-and-newline separated, indented. -/
def printItems : Nat → List JValue → List Char
  | _, [] => []
  | d, [v] => indChars d ++ printChars d v
  | d, v :: vs => indChars d ++ printChars d v ++ ',' :: '\n' :: printItems d vs
/-- Fields of a non-empty object, comma-and-newline separated, indented. -/
def printFields : Nat → List (String × JValue) → List Char
  | _, [] => []
  | d, [(k, v)] => indChars d ++ quoteChars k ++ ':' :: ' ' :: printChars d v
  | d, (k, v) :: fs =>
    indChars d ++ quoteChars k ++ ':' :: ' ' :: printChars d v ++
      ',' :: '\n' :: printFields d fs
end

/-- Model of `JSON.stringify(v, null, 2)`. -/
def stringifyPretty (v : JValue) : String := String.mk (printChars 0 v)

mutual
/-- Compact rendering, model of `JSON.stringify(v)` (no indentation). -/
def printCompact : JValue → List Char
  | .null => "null".data
  | .bool true => "true".data
  | .bool false => "false".data
  | .num n => intChars n
  | .str s => quoteChars s
  | .arr es =>
    (match es with
     | [] => ['[', ']']
     | _ :: _ => '[' :: (printCompactItems es ++ [']']))
  | .obj fs =>
    (match fs with
     | [] => ['\x7b', '\x7d']
     | _ :: _ => '\x7b' :: (printCompactFields fs ++ ['\x7d']))
/-- Members of a non-empty array, comma separated. -/
def printCompactItems : List JValue → List Char
  | [] => []
  | [v] => printCompact v
  | v :: vs => printCompact v ++ ',' :: printCompactItems vs
/-- Fields of a non-empty object, comma separated. -/
def printCompactFields : List (String × JValue) → List Char
  | [] => []
  | [(k, v)] => quoteChars k ++ ':' :: printCompact v
  | (k, v) :: fs => quoteChars k ++ ':' :: printCompact v ++ ',' :: printCompactFields fs
end

/-- Model of `JSON.stringify(v)`. -/
def stringifyCompact (v : JValue) : String := String.mk (printCompact v)

/-! ## `JSON.parse` model -/

/-- Skip JSON whitespace. -/
def skipWs : List Char → List Char := List.dropWhile isJsWs

/-- Decimal digit test. -/
def isDigitCh (c : Char) : Bool := decide (48 ≤ c.toNat) && decide (c.toNat ≤ 57)

/-- Value of a decimal digit character. -/
def digitVal (c : Char) : Nat := c.toNat - 48

/-- Consume a maximal run of decimal digits, accumulating their value. -/
def parseNatAux (acc : Nat) : List Char → Nat × List Char
  | [] => (acc, [])
  | c :: cs => if isDigitCh c then parseNatAux (acc * 10 + digitVal c) cs else (acc, c :: cs)

/-- Value of a hexadecimal digit character, if any. -/
def hexVal (c : Char) : Option Nat :=
  if isDigitCh c then some (c.toNat - 48)
  else if 97 ≤ c.toNat ∧ c.toNat ≤ 102 then some (c.toNat - 87)
  else if 65 ≤ c.toNat ∧ c.toNat ≤ 70 then some (c.toNat - 55)
  else none

/-- Decode a single-character JSON string escape. -/
def escDecode (e : Char) : Option Char :=
  if e = '"' then some '"'
  else if e = '\\' then some '\\'
  else if e = '/' then some '/'
  else if e = 'b' then some '\x08'
  else if e = 'f' then some '\x0c'
  else if e = 'n' then some '\n'
  else if e = 'r' then some '\r'
  else if e = 't' then some '\t'
  else none

/-- Parse the body of a JSON string literal (after the opening quote), up to
and including the closing quote; returns the decoded characters and the rest. -/
def parseStrAux : List Char → Option (List Char × List Char)
  | [] => none
  | c :: cs =>
    if c = '"' then some ([], cs)
    else if c = '\\' then
      match cs with
      | [] => none
      | e :: cs1 =>
        if e = 'u' then
          match cs1 with
          | a :: b :: c2 :: d :: cs2 =>
            (match hexVal a, hexVal b, hexVal c2, hexVal d with
             | some ha, some hb, some hc, some hd =>
               (parseStrAux cs2).map
                 (fun r => (Char.ofNat (((ha * 16 + hb) * 16 + hc) * 16 + hd) :: r.1, r.2))
             | _, _, _, _ => none)
          | _ => none
        else
          match escDecode e with
          | some ce => (parseStrAux cs1).map (fun r => (ce :: r.1, r.2))
          | none => none
    else (parseStrAux cs).map (fun r => (c :: r.1, r.2))

/-- JS duplicate-key object semantics: assigning an existing key keeps its
position and replaces its value; a fresh key is appended. -/
def setField : List (String × JValue) → String → JValue → List (String × JValue)
  | [], k, v => [(k, v)]
  | (k0, v0) :: fs, k, v =>
    if k0 = k then (k0, v) :: fs else (k0, v0) :: setField fs k v

/-- Match an expected literal character sequence, returning the rest. -/
def stripPrefixChars : List Char → List Char → Option (List Char)
  | [], cs => some cs
  | p :: ps, c :: cs => if c = p then stripPrefixChars ps cs else none
  | _ :: _, [] => none

mutual
/-- Fuel-indexed JSON value parser (model of `JSON.parse`, restricted to
integral numerals).  `parseElemsAux` parses the remaining elements of a
non-empty array, `parseFieldsAux` the remaining fields of a non-empty
object. -/
def parseJValue : Nat → List Char → Option (JValue × List Char)
  | 0, _ => none
  | fuel + 1, cs =>
    match skipWs cs with
    | [] => none
    | c :: cs1 =>
      if c = '\x7b' then
        match skipWs cs1 with
        | [] => none
        | c2 :: cs2 =>
          if c2 = '\x7d' then some (.obj [], cs2)
          else parseFieldsAux fuel [] (c2 :: cs2)
      else if c = '[' then
        match skipWs cs1 with
        | [] => none
        | c2 :: cs2 =>
          if c2 = ']' then some (.arr [], cs2)
          else parseElemsAux fuel [] (c2 :: cs2)
      else if c = '"' then (parseStrAux cs1).map (fun r => (JValue.str (String.mk r.1), r.2))
      else if c = 't' then
        match stripPrefixChars ['r', 'u', 'e'] cs1 with
        | some cs2 => some (.bool true, cs2)
        | none => none
      else if c = 'f' then
        match stripPrefixChars ['a', 'l', 's', 'e'] cs1 with
        | some cs2 => some (.bool false, cs2)
        | none => none
      else if c = 'n' then
        match stripPrefixChars ['u', 'l', 'l'] cs1 with
        | some cs2 => some (.null, cs2)
        | none => none
      else if c = '-' then
        match cs1 with
        | [] => none
        | c2 :: cs2 =>
          if isDigitCh c2 then
            let r := parseNatAux (digitVal c2) cs2
            some (.num (-(r.1 : Int)), r.2)
          else none
      else if isDigitCh c then
        let r := parseNatAux (digitVal c) cs1
        some (.num (r.1 : Int), r.2)
      else none
def parseElemsAux : Nat → List JValue → List Char → Option (JValue × List Char)
  | 0, _, _ => none
  | fuel + 1, acc, cs =>
    match parseJValue fuel cs with
    | none => none
    | some (v, rest) =>
      match skipWs rest with
      | [] => none
      | c :: cs2 =>
        if c = ',' then parseElemsAux fuel (acc ++ [v]) cs2
        else if c = ']' then some (.arr (acc ++ [v]), cs2)
        else none
def parseFieldsAux : Nat → List (String × JValue) → List Char → Option (JValue × List Char)
  | 0, _, _ => none
  | fuel + 1, acc, cs =>
    match skipWs cs with
    | [] => none
    | c :: cs1 =>
      if c = '"' then
        match parseStrAux cs1 with
        | none => none
        | some (k, cs2) =>
          match skipWs cs2 with
          | [] => none
          | c2 :: cs3 =>
            if c2 = ':' then
              match parseJValue fuel cs3 with
              | none => none
              | some (v, rest) =>
                match skipWs rest with
                | [] => none
                | c3 :: cs4 =>
                  if c3 = ',' then parseFieldsAux fuel (setField acc (String.mk k) v) cs4
                  else if c3 = '\x7d' then some (.obj (setField acc (String.mk k) v), cs4)
                  else none
            else none
      else none
end

/-- Model of `JSON.parse`: parse a complete JSON document (leading and
trailing whitespace allowed, nothing else may follow). -/
def parseJson (s : String) : Option JValue :=
  match parseJValue (s.data.length + 1) s.data with
  | some (v, rest) => if skipWs rest = [] then some v else none
  | none => none

/-! ## Decoded message shapes

Models of the TS `ContentItem` and `Message` interfaces (source lines 23-51),
as populated by field reads on a `JSON.parse` result.  Fields that the source
only reads behind truthiness checks are decoded to `none`/`false` when absent
or falsy; fields compared with `===` against string literals, or used as
strings, are decoded to `none` when absent or non-string (a read that would
throw a `TypeError` in JS is modelled by the consuming function returning
`none`). -/

/-- JS falsiness of a JSON value. -/
def falsyJ : JValue → Bool
  | .null => true
  | .bool false => true
  | .num 0 => true
  | .str "" => true
  | _ => false

/-- Property lookup on an object's field list. -/
def lookupField : List (String × JValue) → String → Option JValue
  | [], _ => none
  | (k0, v) :: fs, k => if k0 = k then some v else lookupField fs k

/-- JS property access `j[k]` (`none` = `undefined`). -/
def getField : JValue → String → Option JValue
  | .obj fs, k => lookupField fs k
  | _, _ => none

/-- A field value as a string, when present and a string. -/
def asString : Option JValue → Option String
  | some (.str s) => some s
  | _ => none

/-- A field value when present and truthy. -/
def truthyOpt : Option JValue → Option JValue
  | some v => if falsyJ v then none else some v
  | none => none

/-- A string field value when present and truthy (non-empty). -/
def truthyStr : Option JValue → Option String
  | some (.str s) => if s = "" then none else some s
  | _ => none

/-- JS truthiness of a field value. -/
def truthyB (o : Option JValue) : Bool :=
  match o with
  | some v => !falsyJ v
  | none => false

/-- Decoded form of the TS `ContentItem` interface (source lines 23-32),
restricted to the fields the renderers read. -/
structure ContentItem where
  type : Option String
  text : Option String
  name : Option String
  input : Option JValue
  content : Option JValue
  is_error : Bool

/-- Decode one element of a `message.content` array. -/
def decodeContentItem (j : JValue) : ContentItem :=
  { type := asString (getField j "type")
    text := truthyStr (getField j "text")
    name := asString (getField j "name")
    input := truthyOpt (getField j "input")
    content := truthyOpt (getField j "content")
    is_error := truthyB (getField j "is_error") }

/-- Decoded form of the nested `message` object (source lines 37-47):
`content` is `none` when the field is absent or not an array (reading its
`.length` would throw). -/
structure MessageBody where
  content : Option (List ContentItem)

/-- Decoded form of the TS `Message` interface (source lines 34-51). -/
structure Message where
  type : Option String
  subtype : Option String
  session_id : Option String
  model : Option String
  message : Option MessageBody

/-- A `content` field as a decoded item list, when present and an array. -/
def asItems : Option JValue → Option (List ContentItem)
  | some (.arr es) => some (es.map decodeContentItem)
  | _ => none

/-- Decode a parsed JSON value into the `Message` shape. -/
def decodeMessage (j : JValue) : Message :=
  { type := asString (getField j "type")
    subtype := asString (getField j "subtype")
    session_id := asString (getField j "session_id")
    model := asString (getField j "model")
    message :=
      match getField j "message" with
      | some m => if falsyJ m then none else some { content := asItems (getField m "content") }
      | none => none }

/-! ## Annotation-variant content extraction

Model of `extractCleanJSONContentWithErrorCheck` (source lines 186-362) and
its progressive-disclosure policy. -/

/-- Preview threshold for tool inputs (source line 225). -/
def maxInputPreviewLength : Nat := 300

/-- Preview threshold for tool results (source line 307). -/
def maxResultPreviewLength : Nat := 400

/-- Disclosure decision (source lines 227-228 and 309-310): more than two
lines, or longer than the threshold. -/
def needsDisclosure (threshold : Nat) (s : String) : Bool :=
  decide (2 < (jsSplitNl s).length) || decide (threshold < jsLength s)

/-- Preview/remainder split (source lines 235-251 and 317-333): first two
lines when multi-line, else the first `threshold` characters plus an
ellipsis, with the remainder after the split point. -/
def previewRemaining (threshold : Nat) (s : String) : String × String :=
  let lines := jsSplitNl s
  if 2 < lines.length then
    (String.intercalate "\n" (lines.take 2), String.intercalate "\n" (lines.drop 2))
  else if threshold < jsLength s then
    (jsTake s threshold ++ "...", jsDrop s threshold)
  else (s, "")

/-- Rendering of one `tool_use` content item in the annotation variant
(source lines 215-263). -/
def toolUseDesc (ci : ContentItem) : String :=
  let toolInput := match ci.input with
    | some v => stringifyPretty v
    | none => ""
  let toolDesc := "🔧 Using tool: " ++ ci.name.getD "undefined"
  if toolInput ≠ "" ∧ toolInput ≠ "\x7b\x7d" then
    if needsDisclosure maxInputPreviewLength toolInput = false then
      toolDesc ++ " with " ++ toolInput
    else
      let pr := previewRemaining maxInputPreviewLength toolInput
      if pr.2 ≠ "" then
        toolDesc ++ " with " ++ pr.1 ++
          "\n\n<details>\n<summary>Show more input...</summary>\n\n```json\n" ++ pr.2 ++
          "\n```\n\n</details>"
      else toolDesc ++ " with " ++ pr.1
  else toolDesc

/-- The `contentParts` accumulated by the assistant branch
(source lines 206-266). -/
def assistantParts (items : List ContentItem) : List String :=
  items.filterMap fun ci =>
    match ci.type with
    | some "text" => ci.text
    | some "tool_use" => some (toolUseDesc ci)
    | _ => none

/-- `resultContent` of a `tool_result` item (source lines 284-298, also
console variant lines 413-427): prefer the `text` field, pretty-printing it
when it itself parses as JSON, else serialize the `content` field. -/
def toolResultContent (ci : ContentItem) : String :=
  match ci.text with
  | some t =>
    (match parseJson t with
     | some j => stringifyPretty j
     | none => t)
  | none =>
    match ci.content with
    | some v => stringifyPretty v
    | none => ""

/-- Error-indicator prefix (source lines 301-303). -/
def errorIndicator (isErr : Bool) : String :=
  if isErr then "❌ Tool error:" else "✅ Tool result:"

/-- Rendering of one `tool_result` body with progressive disclosure
(source lines 305-342). -/
def renderToolResult (ind : String) (resultContent : String) : String :=
  if needsDisclosure maxResultPreviewLength resultContent = false then
    ind ++ "\n" ++ resultContent
  else
    let pr := previewRemaining maxResultPreviewLength resultContent
    if pr.2 ≠ "" then
      ind ++ "\n" ++ pr.1 ++ "\n\n<details>\n<summary>Show more...</summary>\n\n```\n" ++
        pr.2 ++ "\n```\n\n</details>"
    else ind ++ "\n" ++ pr.1

/-- The user-branch loop (source lines 277-349): accumulated content parts
and the error flag. -/
def userLoop : List ContentItem → List String × Bool
  | [] => ([], false)
  | ci :: rest =>
    let r := userLoop rest
    if ci.type = some "tool_result" then
      let resultContent := toolResultContent ci
      let part :=
        if resultContent ≠ "" then renderToolResult (errorIndicator ci.is_error) resultContent
        else "✅ Tool result received"
      (part :: r.1, ci.is_error || r.2)
    else
      match ci.text with
      | some t => (t :: r.1, r.2)
      | none => r

/-- Model of `extractCleanJSONContentWithErrorCheck` (source lines 186-362):
`(speaker, content, hasError)`, or `none` for a thrown `TypeError` (absent or
non-string `type` reaching `.toUpperCase`, or `message` present with absent
or non-array `content` reaching `.length`), which the callers catch. -/
def extractCleanJSONContentWithErrorCheck (msg : Message) :
    Option (String × String × Bool) :=
  match msg.type with
  | none => none
  | some t =>
    if t = "system" then
      if msg.subtype = some "init" then
        some ("SYSTEM",
          "Session initialized (ID: " ++ msg.session_id.getD "undefined" ++
            ", Model: " ++ msg.model.getD "undefined" ++ ")", false)
      else some ("SYSTEM", "System message", false)
    else if t = "assistant" then
      match msg.message with
      | none => some ("ASSISTANT", "", false)
      | some mb =>
        match mb.content with
        | none => none
        | some items =>
          if 0 < items.length then
            some ("ASSISTANT", String.intercalate "\n\n" (assistantParts items), false)
          else some ("ASSISTANT", "", false)
    else if t = "user" then
      match msg.message with
      | none => some ("USER", "", false)
      | some mb =>
        match mb.content with
        | none => none
        | some items =>
          if 0 < items.length then
            let r := userLoop items
            some ("USER", String.intercalate "\n\n" r.1, r.2)
          else some ("USER", "", false)
    else some (t.toUpper, "Unknown message type", false)

/-! ## Console-variant rendering -/

/-- ANSI color codes (source lines 7-17). -/
def ColorReset : String := "\x1b[0m"

def ColorBold : String := "\x1b[1m"

def ColorDim : String := "\x1b[2m"

def ColorRed : String := "\x1b[31m"

def ColorGreen : String := "\x1b[32m"

def ColorYellow : String := "\x1b[33m"

def ColorBlue : String := "\x1b[34m"

def ColorMagenta : String := "\x1b[35m"

def ColorWhite : String := "\x1b[37m"

def ColorGray : String := "\x1b[90m"

/-- Assistant-branch parts of the console variant (source lines 378-402). -/
def consoleAssistantParts (items : List ContentItem) : List String :=
  items.filterMap fun ci =>
    match ci.type with
    | some "text" => ci.text
    | some "tool_use" =>
      let toolInput := match ci.input with
        | some v => stringifyCompact v
        | none => ""
      let withClause :=
        if toolInput ≠ "" ∧ toolInput ≠ "\x7b\x7d" then " with " ++ toolInput else ""
      some (ColorGreen ++ "🔧 Using tool: " ++ ci.name.getD "undefined" ++ withClause ++
        ColorReset)
    | _ => none

/-- User-branch parts of the console variant (source lines 409-442). -/
def consoleUserParts (items : List ContentItem) : List String :=
  items.filterMap fun ci =>
    if ci.type = some "tool_result" then
      let resultContent := toolResultContent ci
      some (if resultContent ≠ "" then
        (if ci.is_error then ColorRed ++ "❌ Tool error:" ++ ColorReset
         else ColorMagenta ++ "✅ Tool result:" ++ ColorReset) ++ "\n" ++ resultContent
      else ColorMagenta ++ "✅ Tool result received" ++ ColorReset)
    else ci.text

/-- Model of `formatJSONMessage` (source lines 364-454): `(speaker, content)`
for the console renderer, or `none` for a thrown `TypeError` exactly as in
`extractCleanJSONContentWithErrorCheck`. -/
def formatJSONMessage (msg : Message) : Option (String × String) :=
  match msg.type with
  | none => none
  | some t =>
    if t = "system" then
      if msg.subtype = some "init" then
        some ("SYSTEM",
          "Session initialized (ID: " ++ msg.session_id.getD "undefined" ++
            ", Model: " ++ msg.model.getD "undefined" ++ ")")
      else some ("SYSTEM", "System message")
    else if t = "assistant" then
      match msg.message with
      | none => some ("ASSISTANT", "")
      | some mb =>
        match mb.content with
        | none => none
        | some items =>
          if 0 < items.length then
            some ("ASSISTANT", String.intercalate "\n" (consoleAssistantParts items))
          else some ("ASSISTANT", "")
    else if t = "user" then
      match msg.message with
      | none => some ("USER", "")
      | some mb =>
        match mb.content with
        | none => none
        | some items =>
          if 0 < items.length then
            some ("USER", String.intercalate "\n" (consoleUserParts items))
          else some ("USER", "")
    else some (t.toUpper, "Unknown message type")

/-! ## Per-line pipeline -/

/-- The TS `ChatEntry` interface (source lines 53-60). -/
structure ChatEntry where
  lineNumber : Nat
  speaker : String
  content : String
  timestamp : String
  isJSON : Bool
  rawLine : String
deriving DecidableEq

/-- Model of `parseLine` (source lines 456-496).  The mutable
`staticLineNum` counter is passed and returned explicitly; `timestamp`
stands for the `formatRelativeTime(Date.now() - startTime)` value computed
at source line 468.  Note that `isJSON` is set at line 480, before
`formatJSONMessage` runs, so it is `true` even when the latter throws and
the `catch` at line 484 falls back to plain text. -/
def parseLine (staticLineNum : Nat) (timestamp : String) (line : String) :
    Nat × Option ChatEntry :=
  let line := jsTrim line
  if line = "" then (staticLineNum, none)
  else
    let n := staticLineNum + 1
    if jsStartsWithChar line '\x7b' then
      match parseJson line with
      | some j =>
        (match formatJSONMessage (decodeMessage j) with
         | some r => (n, some ⟨n, r.1, r.2, timestamp, true, line⟩)
         | none => (n, some ⟨n, "SYSTEM", line, timestamp, true, line⟩))
      | none => (n, some ⟨n, "SYSTEM", line, timestamp, false, line⟩)
    else (n, some ⟨n, "SYSTEM", line, timestamp, false, line⟩)

/-- Model of `printSingleEntry` (source lines 499-542): the list of console
lines written for one entry (empty when nothing is printed). -/
def printSingleEntry (entry : ChatEntry) : List String :=
  if entry.content = "" then []
  else
    let colors : String × String :=
      if entry.speaker = "ASSISTANT" then (ColorGreen ++ ColorBold, ColorGreen)
      else if entry.speaker = "USER" then (ColorBlue ++ ColorBold, ColorBlue)
      else if entry.speaker = "SYSTEM" then (ColorYellow ++ ColorBold, ColorGray)
      else (ColorWhite, ColorWhite)
    let pfx := ColorGray ++ "[" ++ jsPadStart (jsNumToString entry.lineNumber) 3 '0' ++ "] " ++
      ColorDim ++ "[" ++ entry.timestamp ++ "]" ++ ColorReset ++ " " ++
      colors.1 ++ entry.speaker ++ ":" ++ ColorReset
    let rendered :=
      match jsSplitNl entry.content with
      | [] => []
      | l0 :: restL =>
        (jsPadEnd pfx 45 ' ' ++ " " ++ colors.2 ++ l0 ++ ColorReset) ::
          restL.map (fun l => colors.2 ++ l ++ ColorReset)
    rendered ++ (if entry.isJSON then [""] else [])

/-- Model of `formatRelativeTime` (source lines 63-73): elapsed milliseconds
rendered as `MM:SS`, or `HH:MM:SS` when at least one hour elapsed. -/
def formatRelativeTime (elapsed : Nat) : String :=
  let totalSeconds := elapsed / 1000
  let hours := totalSeconds / 3600
  let minutes := totalSeconds % 3600 / 60
  let seconds := totalSeconds % 60
  if 0 < hours then
    jsPadStart (jsNumToString hours) 2 '0' ++ ":" ++ jsPadStart (jsNumToString minutes) 2 '0' ++ ":" ++
      jsPadStart (jsNumToString seconds) 2 '0'
  else
    jsPadStart (jsNumToString minutes) 2 '0' ++ ":" ++ jsPadStart (jsNumToString seconds) 2 '0'

/-! ## Annotation creation -/

/-- An invocation of the external `buildkite-agent annotate` command
(source lines 174-180): its `--style` and `--context` parameters and the
markdown body piped to it. -/
structure Annot where
  style : String
  context : String
  body : String
deriving DecidableEq

/-- The parse-and-extract step of `createBuildkiteAnnotation` (source lines
98-115) on the trimmed line: `some r` when the line starts with a brace,
parses, and extraction succeeds; `none` otherwise (plain text, parse
failure, or extraction `TypeError` — all caught into the same plain-text
fallback). -/
def annotExtractStep (rawJSONLine : String) : Option (String × String × Bool) :=
  if jsStartsWithChar rawJSONLine '\x7b' then
    match parseJson rawJSONLine with
    | some j => extractCleanJSONContentWithErrorCheck (decodeMessage j)
    | none => none
  else none

/-- Speaker/content/error-flag classification of `createBuildkiteAnnotation`
(source lines 88-120): the extraction result, or the plain-text fallback. -/
def annotClassify (rawJSONLine : String) : String × String × Bool :=
  match annotExtractStep rawJSONLine with
  | some r => r
  | none => ("SYSTEM", rawJSONLine, false)

/-- The early return at source lines 107-110: the annotation is suppressed
iff extraction succeeded with the literal unknown-type marker as content. -/
def annotSuppressed (rawJSONLine : String) : Bool :=
  match annotExtractStep rawJSONLine with
  | some (_, c, _) => c = "Unknown message type"
  | none => false

/-- Speaker-dependent markdown heading and annotation style
(source lines 122-143). -/
def speakerBlockStyle (speaker : String) (hasError : Bool) : String × String :=
  if speaker = "ASSISTANT" then ("🤖 **ASSISTANT**:\n\n", "info")
  else if speaker = "USER" then
    ("👤 **USER**:\n\n", if hasError then "error" else "success")
  else if speaker = "SYSTEM" then ("⚙️ **SYSTEM**:\n\n", "warning")
  else ("**" ++ speaker ++ "**:\n\n", "info")

/-- The raw-JSON disclosure block appended to every annotation body
(source lines 150-167). -/
def rawJsonBlock (rawJSONLine : String) : String :=
  "\n\n<details>\n<summary>Show JSON</summary>\n\n```json\n" ++
    (if jsStartsWithChar rawJSONLine '\x7b' then
      match parseJson rawJSONLine with
      | some j => stringifyPretty j
      | none => rawJSONLine
     else rawJSONLine) ++
    "\n```\n\n</details>"

/-- Model of `createBuildkiteAnnotation` (source lines 75-184): the annotate
invocation produced for a raw input line, or `none` when none is attempted
(blank line, or unknown-type suppression at lines 107-110). -/
def createBuildkiteAnnot (rawLine : String) (lineNumber : Nat) (timestamp : String) :
    Option Annot :=
  let rawJSONLine := jsTrim rawLine
  if rawJSONLine = "" then none
  else if annotSuppressed rawJSONLine then none
  else
    let r := annotClassify rawJSONLine
    let hs := speakerBlockStyle r.1 r.2.2
    let markdownContent :=
      "**Message " ++ jsNumToString lineNumber ++ "** - `" ++ timestamp ++ "`\n\n" ++
        hs.1 ++ (if r.2.1 ≠ "" then r.2.1 else "") ++ rawJsonBlock rawJSONLine
    some { style := hs.2, context := "chat-message-" ++ jsNumToString lineNumber,
           body := markdownContent }

/-! ## Stream drivers and startup -/

/-- Everything one input line produces: the parsed entry (if any), the
console lines printed, the annotate invocations attempted, and the warnings
printed to the error channel. -/
structure LineOut where
  entry : Option ChatEntry
  console : List String
  annots : List Annot
  warnings : List String
deriving DecidableEq

/-- Per-line step of the `line` handler (source lines 546-551): parse,
print, annotate.  `annotFails` says whether the external annotate command
fails for this line; a failure is caught at source lines 181-183 and turned
into a `console.warn` (modelled by its fixed message prefix), after which
the step still returns normally. -/
def processOneLine (annotFails : Bool) (staticLineNum : Nat) (timestamp : String)
    (line : String) : Nat × LineOut :=
  match parseLine staticLineNum timestamp line with
  | (n, none) => (n, ⟨none, [], [], []⟩)
  | (n, some entry) =>
    let con := printSingleEntry entry
    match createBuildkiteAnnot line entry.lineNumber entry.timestamp with
    | none => (n, ⟨some entry, con, [], []⟩)
    | some a =>
      (n, ⟨some entry, con, [a],
        if annotFails then ["Warning: Failed to create Buildkite annotation"] else []⟩)

/-- Stream driver loop (source lines 544-562): process lines in order,
threading the ordinal counter; `annotFails i` tells whether the external
command fails on the i-th line (0-based), `tsOf i` the timestamp computed
for that line. -/
def runStreamAux (annotFails : Nat → Bool) (tsOf : Nat → String) :
    Nat → Nat → List String → List LineOut
  | _, _, [] => []
  | i, c, l :: rest =>
    let r := processOneLine (annotFails i) c (tsOf i) l
    r.2 :: runStreamAux annotFails tsOf (i + 1) r.1 rest

/-- Model of `parseAndStreamOutput` (source lines 544-562). -/
def runStream (annotFails : Nat → Bool) (tsOf : Nat → String) (lines : List String) :
    List LineOut :=
  runStreamAux annotFails tsOf 0 0 lines

/-- The `lines` array accumulated by the `line` handler of
`parseAndStreamOutputWithFile` (source line 573): one `push` per raw line. -/
def storeLines (inputLines : List String) : List String :=
  inputLines.foldl (fun acc l => acc ++ [l]) []

/-- An observable event of `parseAndStreamOutputWithFile`: a processed line,
or the single `writeFileSync` call. -/
inductive StreamEvt where
  | lineOut (o : LineOut) : StreamEvt
  | fileWrite (content : String) : StreamEvt
deriving DecidableEq

/-- Model of `parseAndStreamOutputWithFile` (source lines 564-599): every
line is processed as in `parseAndStreamOutput` while being pushed to the
`lines` array; on `close` the joined array plus a trailing newline is
written to the output file in a single `writeFileSync` call. -/
def parseAndStreamOutputWithFile (annotFails : Nat → Bool) (tsOf : Nat → String)
    (inputLines : List String) : List StreamEvt :=
  (runStream annotFails tsOf inputLines).map StreamEvt.lineOut ++
    [StreamEvt.fileWrite (String.intercalate "\n" (storeLines inputLines) ++ "\n")]

/-- Usage text printed by `printUsage` (source lines 601-608). -/
def usageLines : List String :=
  ["Usage: chat-parser <input-file>",
   "       cat <input-file> | chat-parser -",
   "       cat <input-file> | chat-parser - -o <output-file>",
   "",
   "Options:",
   "  -o <file>    Save output to file (only when streaming from stdin)"]

/-- Argument-parsing loop of `main` (source lines 624-647), threading
`outputFile` and `inputSource`; `Except.error` carries the lines printed
before `process.exit(1)`. -/
def parseArgsLoop (outputFile inputSource : String) :
    List String → Except (List String) (String × String)
  | [] => .ok (outputFile, inputSource)
  | a :: rest =>
    if a = "-o" then
      match rest with
      | [] => .error ("Error: -o requires a filename" :: usageLines)
      | f :: rest2 => parseArgsLoop f inputSource rest2
    else if a = "-" then parseArgsLoop outputFile "-" rest
    else if inputSource = "" then parseArgsLoop outputFile a rest
    else .error (("Error: unexpected argument \x27" ++ a ++ "\x27") :: usageLines)

/-- The configuration `main` runs the stream with. -/
structure RunConfig where
  inputSource : String
  isStreaming : Bool
  outputFile : String
deriving DecidableEq

/-- Model of `main`'s startup (source lines 610-676): either the lines
printed before a `process.exit(1)` — in which case no input line is ever
processed — or the configuration the stream is run with.  The `-o`-in-file-
mode validation is at source lines 672-676. -/
def mainStartup (args : List String) : Except (List String) RunConfig :=
  if args = [] then .error usageLines
  else
    match parseArgsLoop "" "" args with
    | .error ls => .error ls
    | .ok (outputFile, inputSource) =>
      if inputSource = "" then .error usageLines
      else
        let isStreaming := inputSource = "-"
        if outputFile ≠ "" ∧ ¬isStreaming then
          .error ["Error: -o option can only be used when streaming from stdin"]
        else .ok ⟨inputSource, isStreaming, outputFile⟩


/-- Lines that survive the blank-line filter of `parseLine`. -/
def nonBlank (l : String) : Bool := decide (jsTrim l ≠ "")

/-- Contiguous-run containment on character lists. -/
def containsChars : List Char → List Char → Bool
  | s, sub =>
    if sub.isPrefixOf s then true
    else match s with
      | [] => false
      | _ :: t => containsChars t sub

/-- Substring test (model of JS `s.includes(sub)`), used to state body
containment. -/
def containsStr (s sub : String) : Bool := containsChars s.data sub.data

/-- The file-write content of a stream event, if it is one. -/
def fileWriteOf : StreamEvt → Option String
  | .fileWrite c => some c
  | .lineOut _ => none

/-- The C10 probe input: an assistant event whose single text content item is
exactly the unknown-type marker text. -/
def c10input : String :=
  "\x7b\"type\":\"assistant\",\"message\":\x7b\"content\":[\x7b\"type\":\"text\",\"text\":\"Unknown message type\"\x7d]\x7d\x7d"

/-- The C3 probe input: a well-formed assistant event with no message body. -/
def c3input : String := "\x7b\"type\":\"assistant\"\x7d"

/-- The C4 scenario input. -/
def c4input : String :=
  "\x7b\"type\":\"user\",\"message\":\x7b\"content\":[\x7b\"type\":\"tool_result\",\"is_error\":true,\"text\":\"boom\"\x7d]\x7d\x7d"

/-- No leading decimal digit (guard for re-parsing printed numbers). -/
def noDigitHead : List Char → Bool
  | [] => true
  | c :: _ => !isDigitCh c

/-- Key absent from an object's field list. -/
def keyFresh (k : String) : List (String × JValue) → Bool
  | [] => true
  | (k0, _) :: fs => decide (k0 ≠ k) && keyFresh k fs

mutual
/-- Well-formedness of a JSON value: every object along the value has
pairwise-distinct keys (as every `JSON.parse` result does). -/
def wfJ : JValue → Bool
  | .null => true
  | .bool _ => true
  | .num _ => true
  | .str _ => true
  | .arr es => wfList es
  | .obj fs => wfFields fs
/-- All elements well-formed. -/
def wfList : List JValue → Bool
  | [] => true
  | v :: vs => wfJ v && wfList vs
/-- Distinct keys and well-formed values. -/
def wfFields : List (String × JValue) → Bool
  | [] => true
  | (k, v) :: fs => keyFresh k fs && wfJ v && wfFields fs
end


/-! ## Basic lemmas -/

theorem jsLength_append (a b : String) : jsLength (a ++ b) = jsLength a + jsLength b := by
  simp [jsLength, String.data_append]

theorem data_mk (l : List Char) : (String.mk l).data = l := rfl

theorem string_mk_eq_iff (l l' : List Char) : String.mk l = String.mk l' ↔ l = l' :=
  ⟨fun h => congrArg String.data h, fun h => h ▸ rfl⟩

theorem splitNlChars_ne_nil (cs : List Char) : splitNlChars cs ≠ [] := by
  induction cs with
  | nil => simp [splitNlChars]
  | cons c cs ih =>
    unfold splitNlChars
    split
    · simp
    · split
      · simp
      · simp

theorem jsSplitNl_ne_nil (s : String) : jsSplitNl s ≠ [] := by
  simp [jsSplitNl]
  exact splitNlChars_ne_nil s.data

/-- A small-digit number prints as one digit. -/
theorem natDigitsAux_small (fuel k : Nat) (hf : 0 < fuel) (hk : k < 10) :
    natDigitsAux fuel k = [digitCh k] := by
  cases fuel with
  | zero => omega
  | succ fuel => simp [natDigitsAux, hk]

/-- A two-digit number prints as two digits. -/
theorem natDigits_two (m : Nat) (h1 : 10 ≤ m) (h2 : m < 100) :
    natDigits m = [digitCh (m / 10), digitCh (m % 10)] := by
  unfold natDigits natDigitsAux
  have : ¬ m < 10 := by omega
  simp only [this, if_false]
  rw [natDigitsAux_small m (m / 10) (by omega) (by omega)]
  rfl

theorem jsLength_pad2 (m : Nat) (h : m < 100) :
    jsLength (jsPadStart (jsNumToString m) 2 '0') = 2 := by
  by_cases h10 : m < 10
  · have : natDigits m = [digitCh m] := natDigitsAux_small (m + 1) m (by omega) h10
    simp [jsPadStart, jsNumToString, this, jsLength, String.data_append]
  · have := natDigits_two m (by omega) h
    simp [jsPadStart, jsNumToString, this, jsLength]

/-- C8: for every non-negative elapsed duration (in milliseconds), the
relative timestamp is `MM:SS` when the whole elapsed hours are zero and
`HH:MM:SS` when they are at least 1, each component computed from the whole
seconds `elapsed / 1000` and zero-padded to two digits (the minute and
second components always render as exactly two characters). -/
theorem C8_formatRelativeTime (elapsed : Nat) :
    (elapsed / 1000 / 3600 = 0 →
      formatRelativeTime elapsed =
        jsPadStart (jsNumToString (elapsed / 1000 % 3600 / 60)) 2 '0' ++ ":" ++
          jsPadStart (jsNumToString (elapsed / 1000 % 60)) 2 '0' ∧
      jsLength (formatRelativeTime elapsed) = 5) ∧
    (1 ≤ elapsed / 1000 / 3600 →
      formatRelativeTime elapsed =
        jsPadStart (jsNumToString (elapsed / 1000 / 3600)) 2 '0' ++ ":" ++
          (jsPadStart (jsNumToString (elapsed / 1000 % 3600 / 60)) 2 '0' ++ ":" ++
            jsPadStart (jsNumToString (elapsed / 1000 % 60)) 2 '0') ∧
      jsLength (jsPadStart (jsNumToString (elapsed / 1000 % 3600 / 60)) 2 '0') = 2 ∧
      jsLength (jsPadStart (jsNumToString (elapsed / 1000 % 60)) 2 '0') = 2) := by
  have hmin : elapsed / 1000 % 3600 / 60 < 100 := by omega
  have hsec : elapsed / 1000 % 60 < 100 := by omega
  constructor
  · intro h
    have heq : formatRelativeTime elapsed =
        jsPadStart (jsNumToString (elapsed / 1000 % 3600 / 60)) 2 '0' ++ ":" ++
          jsPadStart (jsNumToString (elapsed / 1000 % 60)) 2 '0' := by
      unfold formatRelativeTime
      simp only [h]
      rfl
    refine ⟨heq, ?_⟩
    rw [heq, jsLength_append, jsLength_append, jsLength_pad2 _ hmin, jsLength_pad2 _ hsec]
    rfl
  · intro h
    have hpos : 0 < elapsed / 1000 / 3600 := h
    refine ⟨?_, jsLength_pad2 _ hmin, jsLength_pad2 _ hsec⟩
    unfold formatRelativeTime
    simp only [hpos, if_pos]
    simp [String.append_assoc]

/-- Witness for `C8_formatRelativeTime` at 61 s and at 1 h 1 min 1 s. -/
theorem C8_formatRelativeTime_witness :
    formatRelativeTime 61000 = "01:01" ∧ formatRelativeTime 3661000 = "01:01:01" := by
  have h1 := (C8_formatRelativeTime 61000).1 (by norm_num)
  have h2 := (C8_formatRelativeTime 3661000).2 (by norm_num)
  exact ⟨h1.1.trans (by decide), h2.1.trans (by decide)⟩

/-- C6 (counterexample): combining `-o` with a file-path input source makes
the program print only the single mode-error line — not the usage text — and
exit.  This refutes the claim that the usage text is printed in this case. -/
theorem C6_counterexample :
    mainStartup ["in.txt", "-o", "out.txt"] =
      Except.error ["Error: -o option can only be used when streaming from stdin"] ∧
    ∀ l ∈ ["Error: -o option can only be used when streaming from stdin"],
      l ∉ usageLines := by
  exact ⟨rfl, by decide⟩

/-- C6 (amended): for every command-line invocation whose argument parse
yields a non-empty output file together with a file-path input source (not
`-`, not empty), startup stops with exit code 1 after printing the
mode-error message (not the usage text), before any line is processed (the
`Except.error` outcome carries no run configuration, and the stream drivers
are only invoked on a run configuration). -/
theorem C6_output_flag_file_mode (args : List String) (o src : String)
    (h : parseArgsLoop "" "" args = .ok (o, src))
    (ho : o ≠ "") (hs : src ≠ "") (hd : src ≠ "-") :
    mainStartup args =
      Except.error ["Error: -o option can only be used when streaming from stdin"] := by
  have hne : args ≠ [] := by
    intro he
    subst he
    simp [parseArgsLoop] at h
    exact hs h.2.symm
  unfold mainStartup
  rw [if_neg hne, h]
  simp [hs, hd, ho]

/-- Witness for `C6_output_flag_file_mode` at `chat-parser in.txt -o out.txt`. -/
theorem C6_output_flag_file_mode_witness :
    mainStartup ["in.txt", "-o", "out.txt"] =
      Except.error ["Error: -o option can only be used when streaming from stdin"] :=
  C6_output_flag_file_mode ["in.txt", "-o", "out.txt"] "out.txt" "in.txt" rfl
    (by decide) (by decide) (by decide)

/-- The pushed-line accumulator reproduces the raw input lines. -/
theorem storeLines_eq (ls : List String) : storeLines ls = ls := by
  have h : ∀ acc, List.foldl (fun acc l => acc ++ [l]) acc ls = acc ++ ls := by
    induction ls with
    | nil => simp
    | cons x xs ih => intro acc; simp [List.foldl, ih]
  simpa [storeLines] using h []

/-- C7: in live mode with an output file, for every finite input sequence
the event trace is the per-line processing followed by a single file write,
whose content is the raw input lines (untrimmed, blank lines included)
joined by newlines with one trailing newline; in particular exactly one
write happens, and only after every input line has been processed. -/
theorem C7_output_file (annotFails : Nat → Bool) (tsOf : Nat → String)
    (lines : List String) :
    parseAndStreamOutputWithFile annotFails tsOf lines =
      (runStream annotFails tsOf lines).map StreamEvt.lineOut ++
        [StreamEvt.fileWrite (String.intercalate "\n" lines ++ "\n")] ∧
    (parseAndStreamOutputWithFile annotFails tsOf lines).filterMap fileWriteOf =
      [String.intercalate "\n" lines ++ "\n"] := by
  have h1 : parseAndStreamOutputWithFile annotFails tsOf lines =
      (runStream annotFails tsOf lines).map StreamEvt.lineOut ++
        [StreamEvt.fileWrite (String.intercalate "\n" lines ++ "\n")] := by
    unfold parseAndStreamOutputWithFile
    rw [storeLines_eq]
  refine ⟨h1, ?_⟩
  rw [h1]
  simp [List.filterMap_append, List.filterMap_map, Function.comp_def, fileWriteOf]

theorem parseLine_blank (c : Nat) (ts l : String) (h : jsTrim l = "") :
    parseLine c ts l = (c, none) := by
  unfold parseLine
  simp [h]

theorem parseLine_nonblank (c : Nat) (ts l : String) (h : jsTrim l ≠ "") :
    ∃ e, parseLine c ts l = (c + 1, some e) ∧ e.lineNumber = c + 1 := by
  unfold parseLine
  simp only [h, if_false, ite_false]
  split
  · split
    · split
      · exact ⟨_, rfl, rfl⟩
      · exact ⟨_, rfl, rfl⟩
    · exact ⟨_, rfl, rfl⟩
  · exact ⟨_, rfl, rfl⟩

theorem processOneLine_blank (b : Bool) (c : Nat) (ts l : String) (h : jsTrim l = "") :
    processOneLine b c ts l = (c, ⟨none, [], [], []⟩) := by
  unfold processOneLine
  rw [parseLine_blank c ts l h]

theorem processOneLine_nonblank (b : Bool) (c : Nat) (ts l : String) (h : jsTrim l ≠ "") :
    ∃ out : LineOut, processOneLine b c ts l = (c + 1, out) ∧
      ∃ e, out.entry = some e ∧ e.lineNumber = c + 1 := by
  obtain ⟨e, hp, hn⟩ := parseLine_nonblank c ts l h
  unfold processOneLine
  rw [hp]
  cases hA : createBuildkiteAnnot l e.lineNumber e.timestamp with
  | none =>
    simp only [hA]
    exact ⟨_, rfl, e, rfl, hn⟩
  | some a =>
    simp only [hA]
    exact ⟨_, rfl, e, rfl, hn⟩

theorem runStreamAux_length (annotFails : Nat → Bool) (tsOf : Nat → String) :
    ∀ (lines : List String) (i c : Nat),
      (runStreamAux annotFails tsOf i c lines).length = lines.length := by
  intro lines
  induction lines with
  | nil => intro i c; rfl
  | cons l rest ih => intro i c; simp [runStreamAux, ih]

theorem runStreamAux_ordinals (annotFails : Nat → Bool) (tsOf : Nat → String) :
    ∀ (lines : List String) (i c : Nat),
      ((runStreamAux annotFails tsOf i c lines).filterMap (·.entry)).map (·.lineNumber) =
        List.range' (c + 1) (lines.filter nonBlank).length := by
  intro lines
  induction lines with
  | nil => intro i c; rfl
  | cons l rest ih =>
    intro i c
    by_cases hb : jsTrim l = ""
    · have h1 := processOneLine_blank (annotFails i) c (tsOf i) l hb
      have h2 : nonBlank l = false := by simp [nonBlank, hb]
      simp [runStreamAux, h1, h2, ih (i + 1) c]
    · obtain ⟨out, h1, e, he, hn⟩ := processOneLine_nonblank (annotFails i) c (tsOf i) l hb
      have h2 : nonBlank l = true := by simp [nonBlank, hb]
      simp [runStreamAux, h1, h2, List.filterMap_cons, he, hn, ih (i + 1) (c + 1),
        List.range'_succ]

theorem runStreamAux_blank_index (annotFails : Nat → Bool) (tsOf : Nat → String) :
    ∀ (lines : List String) (i c : Nat) (j : Nat) (h1 : j < lines.length)
      (h2 : j < (runStreamAux annotFails tsOf i c lines).length),
      (jsTrim (lines.get ⟨j, h1⟩) = "" ↔
        ((runStreamAux annotFails tsOf i c lines).get ⟨j, h2⟩).entry = none) ∧
      (jsTrim (lines.get ⟨j, h1⟩) = "" →
        (runStreamAux annotFails tsOf i c lines).get ⟨j, h2⟩ = ⟨none, [], [], []⟩) := by
  intro lines
  induction lines with
  | nil => intro i c j h1 h2; simp at h1
  | cons l rest ih =>
    intro i c j h1 h2
    cases j with
    | zero =>
      by_cases hb : jsTrim l = ""
      · have hp := processOneLine_blank (annotFails i) c (tsOf i) l hb
        simp [runStreamAux, hp, hb]
      · obtain ⟨out, hp, e, he, _⟩ := processOneLine_nonblank (annotFails i) c (tsOf i) l hb
        simp [runStreamAux, hp, hb, he]
    | succ j =>
      have h1r : j < rest.length := by simpa using h1
      have h2r : j <
          (runStreamAux annotFails tsOf (i + 1)
            (processOneLine (annotFails i) c (tsOf i) l).1 rest).length := by
        rw [runStreamAux_length]
        exact h1r
      have := ih (i + 1) (processOneLine (annotFails i) c (tsOf i) l).1 j h1r h2r
      simpa [runStreamAux] using this

/-- C2: across every input sequence, the ordinal assigned to the k-th
non-blank line (after trimming) is exactly k — entries carry ordinals
`1, 2, …` with no gaps — while a blank line produces no entry at all (so it
is neither classified, nor console-rendered, nor annotated), and consumes no
ordinal. -/
theorem C2_ordinal_assignment (annotFails : Nat → Bool) (tsOf : Nat → String)
    (lines : List String) :
    (((runStream annotFails tsOf lines).filterMap (·.entry)).map (·.lineNumber) =
      List.range' 1 (lines.filter nonBlank).length) ∧
    (runStream annotFails tsOf lines).length = lines.length ∧
    ∀ j (h1 : j < lines.length) (h2 : j < (runStream annotFails tsOf lines).length),
      (jsTrim (lines.get ⟨j, h1⟩) = "" ↔
        ((runStream annotFails tsOf lines).get ⟨j, h2⟩).entry = none) ∧
      (jsTrim (lines.get ⟨j, h1⟩) = "" →
        (runStream annotFails tsOf lines).get ⟨j, h2⟩ = ⟨none, [], [], []⟩) := by
  refine ⟨runStreamAux_ordinals annotFails tsOf lines 0 0,
    runStreamAux_length annotFails tsOf lines 0 0, ?_⟩
  intro j h1 h2
  exact runStreamAux_blank_index annotFails tsOf lines 0 0 j h1 h2

/-- Witness for `C2_ordinal_assignment`: a structured line, a blank line and
a plain-text line get ordinals 1 and 2, the blank line producing nothing. -/
theorem C2_ordinal_assignment_witness :
    (((runStream (fun _ => false) (fun _ => "00:00")
        ["\x7b\"type\":\"system\"\x7d", "", "hello"]).filterMap (·.entry)).map
          (·.lineNumber) = [1, 2]) ∧
    (runStream (fun _ => false) (fun _ => "00:00")
        ["\x7b\"type\":\"system\"\x7d", "", "hello"]).get ⟨1, by decide⟩ =
      ⟨none, [], [], []⟩ := by
  have h := C2_ordinal_assignment (fun _ => false) (fun _ => "00:00")
    ["\x7b\"type\":\"system\"\x7d", "", "hello"]
  constructor
  · rw [h.1]
    decide
  · exact (h.2.2 1 (by decide) (by decide)).2 (by decide)

theorem processOneLine_indep (b b' : Bool) (c : Nat) (ts l : String) :
    (processOneLine b c ts l).1 = (processOneLine b' c ts l).1 ∧
    (processOneLine b c ts l).2.entry = (processOneLine b' c ts l).2.entry ∧
    (processOneLine b c ts l).2.console = (processOneLine b' c ts l).2.console ∧
    (processOneLine b c ts l).2.annots = (processOneLine b' c ts l).2.annots := by
  unfold processOneLine
  rcases hp : parseLine c ts l with ⟨n, oe⟩
  cases oe with
  | none => exact ⟨rfl, rfl, rfl, rfl⟩
  | some e =>
    cases hA : createBuildkiteAnnot l e.lineNumber e.timestamp with
    | none => simp [hA]
    | some a => simp [hA]

theorem processOneLine_annots_le (b : Bool) (c : Nat) (ts l : String) :
    (processOneLine b c ts l).2.annots.length ≤ 1 := by
  unfold processOneLine
  rcases hp : parseLine c ts l with ⟨n, oe⟩
  cases oe with
  | none => simp
  | some e =>
    cases hA : createBuildkiteAnnot l e.lineNumber e.timestamp with
    | none => simp only [hA]; simp
    | some a => simp only [hA]; simp

theorem processOneLine_warnings (b : Bool) (c : Nat) (ts l : String) :
    (processOneLine b c ts l).2.warnings =
      (if b = true ∧ (processOneLine b c ts l).2.annots ≠ [] then
        ["Warning: Failed to create Buildkite annotation"] else []) := by
  unfold processOneLine
  rcases hp : parseLine c ts l with ⟨n, oe⟩
  cases oe with
  | none => simp
  | some e =>
    cases hA : createBuildkiteAnnot l e.lineNumber e.timestamp with
    | none => simp only [hA]; simp
    | some a =>
      simp only [hA]
      cases b with
      | false => simp
      | true => simp

theorem runStreamAux_indep (annotFails : Nat → Bool) (tsOf : Nat → String) :
    ∀ (lines : List String) (i c : Nat),
      (runStreamAux annotFails tsOf i c lines).map
          (fun o => (o.entry, o.console, o.annots)) =
        (runStreamAux (fun _ => false) tsOf i c lines).map
          (fun o => (o.entry, o.console, o.annots)) := by
  intro lines
  induction lines with
  | nil => intro i c; rfl
  | cons l rest ih =>
    intro i c
    have h := processOneLine_indep (annotFails i) false c (tsOf i) l
    simp only [runStreamAux, List.map_cons]
    rw [h.1, ih (i + 1) (processOneLine false c (tsOf i) l).1]
    congr 1
    rw [h.2.1, h.2.2.1, h.2.2.2]

theorem runStreamAux_warn_index (annotFails : Nat → Bool) (tsOf : Nat → String) :
    ∀ (lines : List String) (i c : Nat) (j : Nat)
      (h2 : j < (runStreamAux annotFails tsOf i c lines).length),
      ((runStreamAux annotFails tsOf i c lines).get ⟨j, h2⟩).warnings =
        (if annotFails (i + j) = true ∧
            ((runStreamAux annotFails tsOf i c lines).get ⟨j, h2⟩).annots ≠ [] then
          ["Warning: Failed to create Buildkite annotation"] else []) ∧
      ((runStreamAux annotFails tsOf i c lines).get ⟨j, h2⟩).annots.length ≤ 1 := by
  intro lines
  induction lines with
  | nil => intro i c j h2; simp [runStreamAux] at h2
  | cons l rest ih =>
    intro i c j h2
    cases j with
    | zero =>
      refine ⟨?_, ?_⟩
      · simpa [runStreamAux] using processOneLine_warnings (annotFails i) c (tsOf i) l
      · simpa [runStreamAux] using processOneLine_annots_le (annotFails i) c (tsOf i) l
    | succ j =>
      have h2r : j <
          (runStreamAux annotFails tsOf (i + 1)
            (processOneLine (annotFails i) c (tsOf i) l).1 rest).length := by
        simpa [runStreamAux] using h2
      have := ih (i + 1) (processOneLine (annotFails i) c (tsOf i) l).1 j h2r
      have harith : i + 1 + j = i + (j + 1) := by omega
      simpa [runStreamAux, harith] using this

/-- C5: a failure of the external annotate command for any subset of lines is
caught: the console output and the attempted annotate invocations of every
line are identical to a run in which the command never fails, every input
line is still processed (the stream continues), each line attempts the
invocation at most once (no retry), and a warning line is produced for
exactly the lines where an invocation was attempted and failed. -/
theorem C5_annot_failure_tolerated (annotFails : Nat → Bool) (tsOf : Nat → String)
    (lines : List String) :
    (runStream annotFails tsOf lines).map (·.console) =
      (runStream (fun _ => false) tsOf lines).map (·.console) ∧
    (runStream annotFails tsOf lines).map (·.annots) =
      (runStream (fun _ => false) tsOf lines).map (·.annots) ∧
    (runStream annotFails tsOf lines).length = lines.length ∧
    ∀ j (h2 : j < (runStream annotFails tsOf lines).length),
      ((runStream annotFails tsOf lines).get ⟨j, h2⟩).annots.length ≤ 1 ∧
      ((runStream annotFails tsOf lines).get ⟨j, h2⟩).warnings =
        (if annotFails j = true ∧
            ((runStream annotFails tsOf lines).get ⟨j, h2⟩).annots ≠ [] then
          ["Warning: Failed to create Buildkite annotation"] else []) := by
  have hindep := runStreamAux_indep annotFails tsOf lines 0 0
  refine ⟨?_, ?_, runStreamAux_length annotFails tsOf lines 0 0, ?_⟩
  · have := congrArg (List.map (fun p => p.2.1)) hindep
    simpa [Function.comp_def] using this
  · have := congrArg (List.map (fun p => p.2.2)) hindep
    simpa [Function.comp_def] using this
  · intro j h2
    have h := runStreamAux_warn_index annotFails tsOf lines 0 0 j h2
    have hz : (0 : Nat) + j = j := by omega
    rw [hz] at h
    exact ⟨h.2, h.1⟩

/-- Witness for `C5_annot_failure_tolerated`: one plain-text line with a
failing annotate command still produces its console rendering, attempts the
annotation once, and logs one warning. -/
theorem C5_annot_failure_tolerated_witness :
    (runStream (fun _ => true) (fun _ => "00:00") ["hello"]).map (·.console) =
      (runStream (fun _ => false) (fun _ => "00:00") ["hello"]).map (·.console) ∧
    ((runStream (fun _ => true) (fun _ => "00:00") ["hello"]).get ⟨0, by decide⟩).warnings =
      ["Warning: Failed to create Buildkite annotation"] := by
  have h := C5_annot_failure_tolerated (fun _ => true) (fun _ => "00:00") ["hello"]
  refine ⟨h.1, ?_⟩
  have h4 := (h.2.2.2 0 (by decide)).2
  rw [h4]
  rw [if_pos ⟨rfl, by decide⟩]

set_option maxRecDepth 8000 in
/-- C1 (counterexample): for the 401-character single-line body `aaa…a`, the
disclosure split's inline preview has length 403 — the first 400 characters
plus the three-character ellipsis marker — not 400 as claimed. -/
theorem C1_counterexample :
    needsDisclosure maxResultPreviewLength (String.mk (List.replicate 401 'a')) = true ∧
    jsLength (previewRemaining maxResultPreviewLength
      (String.mk (List.replicate 401 'a'))).1 = 403 ∧
    ¬ jsLength (previewRemaining maxResultPreviewLength
      (String.mk (List.replicate 401 'a'))).1 = 400 := by
  refine ⟨by decide, by decide, by decide⟩

/-- C1 (amended): a tool-result body of at most two lines and at most 400
characters is rendered fully inline with no disclosure split (so truncation
never triggers at the threshold or at the two-line cutoff, only strictly
above); a single-line body of exactly 401 characters is split, the inline
preview being the first 400 characters followed by the ellipsis marker
`...` (length 403) and the collapsible remainder holding the rest of the
body. -/
theorem C1_tool_result_boundary :
    (∀ (ind s : String), (jsSplitNl s).length ≤ 2 → jsLength s ≤ 400 →
      needsDisclosure maxResultPreviewLength s = false ∧
      renderToolResult ind s = ind ++ "\n" ++ s) ∧
    (∀ (ind s : String), (jsSplitNl s).length = 1 → jsLength s = 401 →
      needsDisclosure maxResultPreviewLength s = true ∧
      previewRemaining maxResultPreviewLength s = (jsTake s 400 ++ "...", jsDrop s 400) ∧
      jsLength (jsTake s 400 ++ "...") = 403 ∧
      renderToolResult ind s =
        ind ++ "\n" ++ (jsTake s 400 ++ "...") ++
          "\n\n<details>\n<summary>Show more...</summary>\n\n```\n" ++ jsDrop s 400 ++
          "\n```\n\n</details>") := by
  constructor
  · intro ind s hl hc
    have hnd : needsDisclosure maxResultPreviewLength s = false := by
      simp only [needsDisclosure, maxResultPreviewLength, Bool.or_eq_false_iff,
        decide_eq_false_iff_not]
      omega
    refine ⟨hnd, ?_⟩
    unfold renderToolResult
    simp [hnd]
  · intro ind s hl hc
    have hnd : needsDisclosure maxResultPreviewLength s = true := by
      simp only [needsDisclosure, maxResultPreviewLength, Bool.or_eq_true,
        decide_eq_true_eq]
      omega
    have hpr : previewRemaining maxResultPreviewLength s =
        (jsTake s 400 ++ "...", jsDrop s 400) := by
      simp only [previewRemaining, maxResultPreviewLength]
      rw [if_neg (by omega), if_pos (by omega)]
    have hlen : jsLength (jsTake s 400 ++ "...") = 403 := by
      have h1 : jsLength (jsTake s 400) = 400 := by
        simp only [jsTake, jsLength, data_mk, List.length_take]
        simp only [jsLength] at hc
        omega
      rw [jsLength_append, h1]
      rfl
    have hrem : jsDrop s 400 ≠ "" := by
      intro hcon
      have hdata := congrArg String.data hcon
      simp only [jsDrop, data_mk] at hdata
      have hlen2 : (s.data.drop 400).length = 0 := by rw [hdata]; rfl
      rw [List.length_drop] at hlen2
      simp only [jsLength] at hc
      omega
    refine ⟨hnd, hpr, hlen, ?_⟩
    unfold renderToolResult
    simp only [hnd, Bool.true_eq_false, if_false, hpr]
    rw [if_pos hrem]

set_option maxRecDepth 8000 in
/-- Witness for `C1_tool_result_boundary` at a 400-character and a
401-character single-line body. -/
theorem C1_tool_result_boundary_witness :
    renderToolResult "✅ Tool result:" (String.mk (List.replicate 400 'a')) =
      "✅ Tool result:" ++ "\n" ++ String.mk (List.replicate 400 'a') ∧
    renderToolResult "✅ Tool result:" (String.mk (List.replicate 401 'a')) =
      "✅ Tool result:" ++ "\n" ++
        (jsTake (String.mk (List.replicate 401 'a')) 400 ++ "...") ++
        "\n\n<details>\n<summary>Show more...</summary>\n\n```\n" ++
        jsDrop (String.mk (List.replicate 401 'a')) 400 ++
        "\n```\n\n</details>" := by
  constructor
  · exact ((C1_tool_result_boundary.1 "✅ Tool result:" (String.mk (List.replicate 400 'a'))
      (by decide) (by decide)).2)
  · exact ((C1_tool_result_boundary.2 "✅ Tool result:" (String.mk (List.replicate 401 'a'))
      (by decide) (by decide)).2.2.2)

/-- C10: annotation suppression is literal string equality of the rendered
content with `Unknown message type`: this input decodes to the known
`assistant` kind, yet its extraction result carries exactly that literal, so
`annotSuppressed` fires and no annotation is created — suppression is not
equivalent to the event being of unrecognized type. -/
theorem C10_literal_suppression :
    (parseJson c10input).map (fun j => (decodeMessage j).type) = some (some "assistant") ∧
    annotExtractStep c10input = some ("ASSISTANT", "Unknown message type", false) ∧
    annotSuppressed c10input = true ∧
    createBuildkiteAnnot c10input 1 "00:00" = none :=
  ⟨rfl, rfl, rfl, rfl⟩

theorem printSingleEntry_eq_nil_iff (e : ChatEntry) :
    printSingleEntry e = [] ↔ e.content = "" := by
  constructor
  · intro h
    by_contra hc
    unfold printSingleEntry at h
    rw [if_neg hc] at h
    rcases hsp : jsSplitNl e.content with _ | ⟨l0, restL⟩
    · exact jsSplitNl_ne_nil e.content hsp
    · rw [hsp] at h
      simp at h
  · intro h
    unfold printSingleEntry
    rw [if_pos h]

theorem startsWith_ne_empty (s : String) (c : Char) (h : jsStartsWithChar s c = true) :
    s ≠ "" := by
  intro he
  subst he
  simp [jsStartsWithChar] at h

theorem annotSuppressed_iff (s : String) :
    annotSuppressed s = true ↔
      (annotExtractStep s).map (fun r => r.2.1) = some "Unknown message type" := by
  unfold annotSuppressed
  cases annotExtractStep s with
  | none => simp
  | some r =>
    rcases r with ⟨sp, cnt, he⟩
    simp

theorem createBuildkiteAnnot_none_iff (raw : String) (ln : Nat) (ts : String)
    (hne : jsTrim raw ≠ "") :
    (createBuildkiteAnnot raw ln ts = none ↔ annotSuppressed (jsTrim raw) = true) := by
  unfold createBuildkiteAnnot
  rw [if_neg hne]
  by_cases hs : annotSuppressed (jsTrim raw) = true
  · simp [hs]
  · simp [hs]

theorem annotExtractStep_parsed (s : String) (j : JValue)
    (hs : jsStartsWithChar s '\x7b' = true) (hp : parseJson s = some j) :
    annotExtractStep s = extractCleanJSONContentWithErrorCheck (decodeMessage j) := by
  simp [annotExtractStep, hs, hp]

theorem formatJSONMessage_unknown (msg : Message) (t : String)
    (ht : msg.type = some t) (h1 : t ≠ "system") (h2 : t ≠ "assistant") (h3 : t ≠ "user") :
    formatJSONMessage msg = some (t.toUpper, "Unknown message type") := by
  unfold formatJSONMessage
  rw [ht]
  split <;> simp_all

theorem extract_unknown (msg : Message) (t : String)
    (ht : msg.type = some t) (h1 : t ≠ "system") (h2 : t ≠ "assistant") (h3 : t ≠ "user") :
    extractCleanJSONContentWithErrorCheck msg =
      some (t.toUpper, "Unknown message type", false) := by
  unfold extractCleanJSONContentWithErrorCheck
  rw [ht]
  split <;> simp_all

theorem parseLine_parsed (c : Nat) (ts raw : String) (j : JValue) (r : String × String)
    (hne : jsTrim raw ≠ "") (hs : jsStartsWithChar (jsTrim raw) '\x7b' = true)
    (hp : parseJson (jsTrim raw) = some j)
    (hf : formatJSONMessage (decodeMessage j) = some r) :
    parseLine c ts raw = (c + 1, some ⟨c + 1, r.1, r.2, ts, true, jsTrim raw⟩) := by
  unfold parseLine
  simp only [hne, if_false, ite_false, hs, if_true, ite_true, hp, hf]

/-- C3 (counterexample): this line decodes to the known `assistant` kind, yet
its console rendering is empty — `printSingleEntry` prints nothing — while an
annotation is still emitted; so it is not the case that every known-kind line
produces both a console rendering and an annotation emission. -/
theorem C3_counterexample :
    (parseJson c3input).map (fun j => (decodeMessage j).type) = some (some "assistant") ∧
    (parseLine 0 "00:00" c3input).2 = some ⟨1, "ASSISTANT", "", "00:00", true, c3input⟩ ∧
    printSingleEntry ⟨1, "ASSISTANT", "", "00:00", true, c3input⟩ = [] ∧
    (createBuildkiteAnnot c3input 1 "00:00").isSome = true :=
  ⟨rfl, rfl, rfl, rfl⟩

/-- C3 (amended): for every line that decodes successfully as a structured
event, (a) if it is of one of the three known kinds, an annotation emission
is produced unless the annotation-stage rendered content is exactly the
literal `Unknown message type` (in which case it is suppressed), and a
console rendering is produced exactly when the console-stage rendered
content is non-empty; (b) for every line decoding to an unrecognized type,
a console rendering is produced — speaker the uppercased type name, body the
fixed unrecognized-type marker — and annotation emission is suppressed. -/
theorem C3_renderings (raw ts : String) (ln c : Nat) (j : JValue)
    (hs : jsStartsWithChar (jsTrim raw) '\x7b' = true)
    (hp : parseJson (jsTrim raw) = some j) :
    (((decodeMessage j).type = some "system" ∨ (decodeMessage j).type = some "assistant" ∨
        (decodeMessage j).type = some "user") →
      ((createBuildkiteAnnot raw ln ts = none ↔
        (extractCleanJSONContentWithErrorCheck (decodeMessage j)).map (fun r => r.2.1) =
          some "Unknown message type") ∧
       ∃ e, (parseLine c ts raw).2 = some e ∧ (printSingleEntry e = [] ↔ e.content = ""))) ∧
    (∀ t, (decodeMessage j).type = some t → t ≠ "system" → t ≠ "assistant" → t ≠ "user" →
      createBuildkiteAnnot raw ln ts = none ∧
      ∃ e, (parseLine c ts raw).2 = some e ∧ e.speaker = t.toUpper ∧
        e.content = "Unknown message type" ∧ printSingleEntry e ≠ []) := by
  have hne : jsTrim raw ≠ "" := startsWith_ne_empty (jsTrim raw) '\x7b' hs
  constructor
  · intro _
    constructor
    · rw [createBuildkiteAnnot_none_iff raw ln ts hne, annotSuppressed_iff,
        annotExtractStep_parsed (jsTrim raw) j hs hp]
    · obtain ⟨e, hple, _⟩ := parseLine_nonblank c ts raw hne
      exact ⟨e, by rw [hple], printSingleEntry_eq_nil_iff e⟩
  · intro t ht h1 h2 h3
    have hfmt := formatJSONMessage_unknown (decodeMessage j) t ht h1 h2 h3
    have hext := extract_unknown (decodeMessage j) t ht h1 h2 h3
    constructor
    · rw [createBuildkiteAnnot_none_iff raw ln ts hne, annotSuppressed_iff,
        annotExtractStep_parsed (jsTrim raw) j hs hp, hext]
      rfl
    · refine ⟨⟨c + 1, t.toUpper, "Unknown message type", ts, true, jsTrim raw⟩, ?_, rfl, rfl, ?_⟩
      · rw [parseLine_parsed c ts raw j (t.toUpper, "Unknown message type") hne hs hp hfmt]
      · intro hnil
        have := (printSingleEntry_eq_nil_iff _).mp hnil
        simp at this

/-- Witness for `C3_renderings`: a system event (known kind, annotation
emitted, console rendered) discharged at concrete input. -/
theorem C3_renderings_witness :
    createBuildkiteAnnot "\x7b\"type\":\"system\"\x7d" 1 "00:00" ≠ none ∧
    ∃ e, (parseLine 0 "00:00" "\x7b\"type\":\"system\"\x7d").2 = some e ∧
      printSingleEntry e ≠ [] := by
  have h := (C3_renderings "\x7b\"type\":\"system\"\x7d" "00:00" 1 0
    (JValue.obj [("type", JValue.str "system")]) rfl rfl).1 (Or.inl rfl)
  constructor
  · rw [Ne, h.1]
    decide
  · obtain ⟨e, he, hiff⟩ := h.2
    refine ⟨e, he, ?_⟩
    rw [Ne, hiff]
    have : (parseLine 0 "00:00" "\x7b\"type\":\"system\"\x7d").2 =
        some ⟨1, "SYSTEM", "System message", "00:00", true, "\x7b\"type\":\"system\"\x7d"⟩ := rfl
    rw [this] at he
    cases he
    decide

theorem userLoop_hasError (items : List ContentItem) :
    (userLoop items).2 =
      items.any (fun ci => decide (ci.type = some "tool_result") && ci.is_error) := by
  induction items with
  | nil => rfl
  | cons ci rest ih =>
    unfold userLoop
    by_cases h : ci.type = some "tool_result"
    · simp [h, ih]
    · cases ht : ci.text with
      | some t => simp [h, ht, ih]
      | none => simp [h, ht, ih]

theorem extract_system (msg : Message) (ht : msg.type = some "system") :
    ∃ cnt, extractCleanJSONContentWithErrorCheck msg = some ("SYSTEM", cnt, false) := by
  by_cases hsub : msg.subtype = some "init"
  · exact ⟨"Session initialized (ID: " ++ msg.session_id.getD "undefined" ++
      ", Model: " ++ msg.model.getD "undefined" ++ ")",
      by simp [extractCleanJSONContentWithErrorCheck, ht, hsub]⟩
  · exact ⟨"System message", by simp [extractCleanJSONContentWithErrorCheck, ht, hsub]⟩

theorem extract_assistant (msg : Message) (ht : msg.type = some "assistant") :
    extractCleanJSONContentWithErrorCheck msg = none ∨
    ∃ cnt, extractCleanJSONContentWithErrorCheck msg = some ("ASSISTANT", cnt, false) := by
  cases hm : msg.message with
  | none => exact Or.inr ⟨"", by simp [extractCleanJSONContentWithErrorCheck, ht, hm]⟩
  | some mb =>
    cases hc : mb.content with
    | none => exact Or.inl (by simp [extractCleanJSONContentWithErrorCheck, ht, hm, hc])
    | some items =>
      by_cases hlen : 0 < items.length
      · exact Or.inr ⟨String.intercalate "\n\n" (assistantParts items),
          by simp [extractCleanJSONContentWithErrorCheck, ht, hm, hc, hlen]⟩
      · exact Or.inr ⟨"", by simp [extractCleanJSONContentWithErrorCheck, ht, hm, hc, hlen]⟩

theorem extract_user (msg : Message) (mb : MessageBody) (items : List ContentItem)
    (ht : msg.type = some "user") (hm : msg.message = some mb)
    (hc : mb.content = some items) :
    extractCleanJSONContentWithErrorCheck msg =
      some ("USER",
        (if 0 < items.length then String.intercalate "\n\n" (userLoop items).1 else ""),
        (if 0 < items.length then (userLoop items).2 else false)) := by
  by_cases hlen : 0 < items.length
  · simp [extractCleanJSONContentWithErrorCheck, ht, hm, hc, hlen]
  · simp [extractCleanJSONContentWithErrorCheck, ht, hm, hc, hlen]

theorem createBuildkiteAnnot_style (raw : String) (ln : Nat) (ts : String) (a : Annot)
    (h : createBuildkiteAnnot raw ln ts = some a) :
    a.style = (speakerBlockStyle (annotClassify (jsTrim raw)).1
      (annotClassify (jsTrim raw)).2.2).2 := by
  unfold createBuildkiteAnnot at h
  by_cases hne : jsTrim raw = ""
  · rw [if_pos hne] at h
    cases h
  · rw [if_neg hne] at h
    by_cases hsup : annotSuppressed (jsTrim raw) = true
    · simp [hsup] at h
    · rw [Bool.not_eq_true] at hsup
      simp only [hsup, Bool.false_eq_true, if_false, ite_false] at h
      cases h
      rfl

theorem annotClassify_parsed (s : String) (j : JValue) (r : String × String × Bool)
    (hs : jsStartsWithChar s '\x7b' = true) (hp : parseJson s = some j)
    (hext : extractCleanJSONContentWithErrorCheck (decodeMessage j) = some r) :
    annotClassify s = r := by
  unfold annotClassify
  rw [annotExtractStep_parsed s j hs hp, hext]

set_option maxRecDepth 100000 in
/-- C4: every emitted annotation's style follows the classification: `error`
for user-role entries where some tool-result content item carries the error
flag and `success` for user-role entries with none, `warning` for system
entries and for plain-text lines classified as SYSTEM, `info` for assistant
entries; and the concrete error-flagged tool-result input yields style
`error` with a body containing `❌ Tool error:` and `boom`. -/
theorem C4_annotation_styles :
    (∀ (raw ts : String) (ln : Nat) (j : JValue) (mb : MessageBody)
        (items : List ContentItem) (a : Annot),
      jsStartsWithChar (jsTrim raw) '\x7b' = true →
      parseJson (jsTrim raw) = some j →
      (decodeMessage j).type = some "user" →
      (decodeMessage j).message = some mb →
      mb.content = some items →
      createBuildkiteAnnot raw ln ts = some a →
      a.style =
        (if items.any (fun ci => decide (ci.type = some "tool_result") && ci.is_error)
         then "error" else "success")) ∧
    (∀ (raw ts : String) (ln : Nat) (j : JValue) (a : Annot),
      jsStartsWithChar (jsTrim raw) '\x7b' = true →
      parseJson (jsTrim raw) = some j →
      (decodeMessage j).type = some "system" →
      createBuildkiteAnnot raw ln ts = some a →
      a.style = "warning") ∧
    (∀ (raw ts : String) (ln : Nat) (j : JValue) (a : Annot),
      jsStartsWithChar (jsTrim raw) '\x7b' = true →
      parseJson (jsTrim raw) = some j →
      (decodeMessage j).type = some "assistant" →
      extractCleanJSONContentWithErrorCheck (decodeMessage j) ≠ none →
      createBuildkiteAnnot raw ln ts = some a →
      a.style = "info") ∧
    (∀ (raw ts : String) (ln : Nat) (a : Annot),
      jsTrim raw ≠ "" →
      jsStartsWithChar (jsTrim raw) '\x7b' = false →
      createBuildkiteAnnot raw ln ts = some a →
      a.style = "warning") ∧
    (∃ a, createBuildkiteAnnot c4input 1 "00:00" = some a ∧ a.style = "error" ∧
      containsStr a.body "❌ Tool error:" = true ∧ containsStr a.body "boom" = true) := by
  refine ⟨?_, ?_, ?_, ?_, ?_⟩
  · intro raw ts ln j mb items a hs hp ht hm hc hann
    have hu := extract_user (decodeMessage j) mb items ht hm hc
    have hcls := annotClassify_parsed (jsTrim raw) j _ hs hp hu
    rw [createBuildkiteAnnot_style raw ln ts a hann, hcls]
    cases items with
    | nil => simp [speakerBlockStyle]
    | cons x xs =>
      have hlen : 0 < (x :: xs).length := by simp
      rw [if_pos hlen, userLoop_hasError]
      by_cases hb :
          ((x :: xs).any (fun ci => decide (ci.type = some "tool_result") && ci.is_error)) =
            true
      · simp [speakerBlockStyle, hb]
      · rw [Bool.not_eq_true] at hb
        simp [speakerBlockStyle, hb]
  · intro raw ts ln j a hs hp ht hann
    obtain ⟨cnt, hsys⟩ := extract_system (decodeMessage j) ht
    have hcls := annotClassify_parsed (jsTrim raw) j _ hs hp hsys
    rw [createBuildkiteAnnot_style raw ln ts a hann, hcls]
    rfl
  · intro raw ts ln j a hs hp ht hne hann
    rcases extract_assistant (decodeMessage j) ht with hnone | ⟨cnt, hasst⟩
    · exact absurd hnone hne
    · have hcls := annotClassify_parsed (jsTrim raw) j _ hs hp hasst
      rw [createBuildkiteAnnot_style raw ln ts a hann, hcls]
      rfl
  · intro raw ts ln a hne hsw hann
    have hstep : annotExtractStep (jsTrim raw) = none := by
      simp [annotExtractStep, hsw]
    have hcls : annotClassify (jsTrim raw) = ("SYSTEM", jsTrim raw, false) := by
      simp [annotClassify, hstep]
    rw [createBuildkiteAnnot_style raw ln ts a hann, hcls]
    rfl
  · refine ⟨_, rfl, rfl, rfl, rfl⟩

set_option maxRecDepth 100000 in
/-- Witness for `C4_annotation_styles`: the user-role part applied at the
scenario input, whose single tool-result item carries the error flag. -/
theorem C4_annotation_styles_witness :
    (createBuildkiteAnnot c4input 1 "00:00").map (·.style) = some "error" := by
  obtain ⟨a, ha⟩ : ∃ a, createBuildkiteAnnot c4input 1 "00:00" = some a := ⟨_, rfl⟩
  have hsty := C4_annotation_styles.1 c4input "00:00" 1
    (JValue.obj [("type", JValue.str "user"),
      ("message", JValue.obj [("content", JValue.arr
        [JValue.obj [("type", JValue.str "tool_result"),
          ("is_error", JValue.bool true), ("text", JValue.str "boom")]])])])
    { content := some [⟨some "tool_result", some "boom", none, none, none, true⟩] }
    [⟨some "tool_result", some "boom", none, none, none, true⟩] a
    rfl rfl rfl rfl rfl ha
  rw [ha]
  simp only [Option.map]
  rw [hsty]
  rfl

/-! ## Round-trip of the JSON printer and parser (for C9) -/

theorem skipWs_cons_of_ws (c : Char) (cs : List Char) (h : isJsWs c = true) :
    skipWs (c :: cs) = skipWs cs := by
  simp [skipWs, List.dropWhile, h]

theorem skipWs_cons_of_not (c : Char) (cs : List Char) (h : isJsWs c = false) :
    skipWs (c :: cs) = c :: cs := by
  simp [skipWs, List.dropWhile, h]

theorem skipWs_replicate_space (n : Nat) (cs : List Char) :
    skipWs (List.replicate n ' ' ++ cs) = skipWs cs := by
  induction n with
  | zero => rfl
  | succ n ih =>
    rw [List.replicate_succ, List.cons_append, skipWs_cons_of_ws _ _ (by decide)]
    exact ih

theorem skipWs_indent (d : Nat) (cs : List Char) :
    skipWs (indChars d ++ cs) = skipWs cs :=
  skipWs_replicate_space (2 * d) cs

theorem parseJValue_congr_ws (fuel : Nat) (cs cs' : List Char)
    (h : skipWs cs = skipWs cs') : parseJValue fuel cs = parseJValue fuel cs' := by
  cases fuel with
  | zero => rfl
  | succ fuel =>
    unfold parseJValue
    rw [h]

theorem parseElemsAux_congr_ws (fuel : Nat) (acc : List JValue) (cs cs' : List Char)
    (h : skipWs cs = skipWs cs') :
    parseElemsAux fuel acc cs = parseElemsAux fuel acc cs' := by
  cases fuel with
  | zero => rfl
  | succ fuel =>
    unfold parseElemsAux
    rw [parseJValue_congr_ws fuel cs cs' h]

theorem parseFieldsAux_congr_ws (fuel : Nat) (acc : List (String × JValue))
    (cs cs' : List Char) (h : skipWs cs = skipWs cs') :
    parseFieldsAux fuel acc cs = parseFieldsAux fuel acc cs' := by
  cases fuel with
  | zero => rfl
  | succ fuel =>
    unfold parseFieldsAux
    rw [h]

theorem ne_of_toNat_ne (c d : Char) (h : c.toNat ≠ d.toNat) : c ≠ d :=
  fun he => h (he ▸ rfl)

theorem digit_ne_char (c d : Char) (h : isDigitCh c = true)
    (hd : d.toNat < 48 ∨ 57 < d.toNat) : c ≠ d := by
  simp only [isDigitCh, Bool.and_eq_true, decide_eq_true_eq] at h
  intro he
  subst he
  omega

theorem digit_not_ws (c : Char) (h : isDigitCh c = true) : isJsWs c = false := by
  simp only [isJsWs, Bool.or_eq_false_iff, decide_eq_false_iff_not]
  refine ⟨⟨⟨?_, ?_⟩, ?_⟩, ?_⟩ <;>
    (intro he; subst he; exact absurd h (by decide))

theorem digitCh_isDigit (m : Nat) (h : m < 10) : isDigitCh (digitCh m) = true := by
  interval_cases m <;> decide

theorem digitVal_digitCh (m : Nat) (h : m < 10) : digitVal (digitCh m) = m := by
  interval_cases m <;> decide

theorem natDigitsAux_head (fuel : Nat) :
    ∀ n : Nat, ∃ m cs, natDigitsAux (fuel + 1) n = digitCh m :: cs ∧ m < 10 := by
  induction fuel with
  | zero =>
    intro n
    unfold natDigitsAux
    by_cases h : n < 10
    · rw [if_pos h]
      exact ⟨n, [], rfl, h⟩
    · rw [if_neg h]
      exact ⟨n % 10, [], rfl, by omega⟩
  | succ fuel ih =>
    intro n
    unfold natDigitsAux
    by_cases h : n < 10
    · rw [if_pos h]
      exact ⟨n, [], rfl, h⟩
    · rw [if_neg h]
      obtain ⟨m, cs, heq, hm⟩ := ih (n / 10)
      exact ⟨m, cs ++ [digitCh (n % 10)], by rw [heq]; rfl, hm⟩

theorem natDigits_head (n : Nat) :
    ∃ m cs, natDigits n = digitCh m :: cs ∧ m < 10 :=
  natDigitsAux_head n n

theorem natDigitsAux_all_digits (fuel : Nat) :
    ∀ (n : Nat) (c : Char), c ∈ natDigitsAux fuel n → isDigitCh c = true := by
  induction fuel with
  | zero => intro n c hc; simp [natDigitsAux] at hc
  | succ fuel ih =>
    intro n c hc
    unfold natDigitsAux at hc
    by_cases h : n < 10
    · rw [if_pos h] at hc
      simp at hc
      subst hc
      exact digitCh_isDigit n h
    · rw [if_neg h] at hc
      rcases List.mem_append.mp hc with h1 | h2
      · exact ih (n / 10) c h1
      · simp at h2
        subst h2
        exact digitCh_isDigit (n % 10) (by omega)

theorem natDigits_all_digits (n : Nat) (c : Char) (hc : c ∈ natDigits n) :
    isDigitCh c = true :=
  natDigitsAux_all_digits (n + 1) n c hc

theorem parseNatAux_append (ds : List Char) :
    ∀ (acc : Nat) (rest : List Char), (∀ c ∈ ds, isDigitCh c = true) →
      noDigitHead rest = true →
      parseNatAux acc (ds ++ rest) =
        (ds.foldl (fun a c => a * 10 + digitVal c) acc, rest) := by
  induction ds with
  | nil =>
    intro acc rest _ hrest
    cases rest with
    | nil => rfl
    | cons c r =>
      simp only [noDigitHead, Bool.not_eq_true'] at hrest
      simp [parseNatAux, hrest]
  | cons d ds ih =>
    intro acc rest hds hrest
    have hd : isDigitCh d = true := hds d (by simp)
    simp only [List.cons_append, parseNatAux, hd, if_true, List.foldl_cons]
    exact ih _ rest (fun c hc => hds c (by simp [hc])) hrest

theorem natDigitsAux_foldl (fuel : Nat) :
    ∀ (n acc : Nat), n < fuel →
      (natDigitsAux fuel n).foldl (fun a c => a * 10 + digitVal c) acc =
        acc * 10 ^ (natDigitsAux fuel n).length + n := by
  induction fuel with
  | zero => intro n acc h; omega
  | succ fuel ih =>
    intro n acc h
    unfold natDigitsAux
    by_cases h10 : n < 10
    · rw [if_pos h10]
      simp [digitVal_digitCh n h10]
    · rw [if_neg h10]
      rw [List.foldl_append]
      simp only [List.foldl_cons, List.foldl_nil]
      rw [ih (n / 10) acc (by omega), digitVal_digitCh _ (by omega)]
      rw [List.length_append, List.length_singleton, pow_succ]
      have hmul : acc * (10 ^ (natDigitsAux fuel (n / 10)).length * 10) =
          acc * 10 ^ (natDigitsAux fuel (n / 10)).length * 10 := by ring
      rw [hmul]
      omega

theorem natDigits_foldl (n : Nat) :
    (natDigits n).foldl (fun a c => a * 10 + digitVal c) 0 = n := by
  have := natDigitsAux_foldl (n + 1) n 0 (by omega)
  simpa [natDigits] using this

theorem parseNatAux_natDigits (n : Nat) (rest : List Char)
    (hrest : noDigitHead rest = true) (d : Char) (ds : List Char)
    (heq : natDigits n = d :: ds) :
    parseNatAux (digitVal d) (ds ++ rest) = (n, rest) := by
  have hds : ∀ c ∈ ds, isDigitCh c = true := fun c hc =>
    natDigits_all_digits n c (by rw [heq]; exact List.mem_cons_of_mem d hc)
  rw [parseNatAux_append ds (digitVal d) rest hds hrest]
  have h0 := natDigits_foldl n
  rw [heq, List.foldl_cons] at h0
  simp only [Nat.zero_mul, Nat.zero_add] at h0
  rw [h0]

theorem printChars_head (d : Nat) (v : JValue) :
    ∃ c cs, printChars d v = c :: cs ∧ isJsWs c = false := by
  cases v with
  | null => exact ⟨'n', _, rfl, rfl⟩
  | bool b => cases b with
    | true => exact ⟨'t', _, rfl, rfl⟩
    | false => exact ⟨'f', _, rfl, rfl⟩
  | num n =>
    show ∃ c cs, intChars n = c :: cs ∧ isJsWs c = false
    unfold intChars
    by_cases hn : n < 0
    · rw [if_pos hn]
      exact ⟨'-', _, rfl, rfl⟩
    · rw [if_neg hn]
      obtain ⟨m, cs, heq, hm⟩ := natDigits_head n.natAbs
      exact ⟨_, _, heq, digit_not_ws _ (digitCh_isDigit m hm)⟩
  | str s => exact ⟨'"', _, rfl, rfl⟩
  | arr es =>
    cases es with
    | nil => exact ⟨'[', _, rfl, rfl⟩
    | cons v vs => exact ⟨'[', _, rfl, rfl⟩
  | obj fs =>
    cases fs with
    | nil => exact ⟨'\x7b', _, rfl, rfl⟩
    | cons f fs => exact ⟨'\x7b', _, rfl, rfl⟩

theorem skipWs_print (d : Nat) (v : JValue) (rest : List Char) :
    skipWs (printChars d v ++ rest) = printChars d v ++ rest := by
  obtain ⟨c, cs, heq, hws⟩ := printChars_head d v
  rw [heq, List.cons_append, skipWs_cons_of_not _ _ hws]

theorem hexVal_hexCh (m : Nat) (h : m < 16) : hexVal (hexCh m) = some m := by
  interval_cases m <;> decide

theorem parseStrAux_escape (l : List Char) :
    ∀ rest : List Char,
      parseStrAux ((l.map escapeChar).flatten ++ '"' :: rest) = some (l, rest) := by
  induction l with
  | nil =>
    intro rest
    simp only [List.map_nil, List.flatten_nil, List.nil_append]
    unfold parseStrAux
    simp
  | cons c l ih =>
    intro rest
    simp only [List.map_cons, List.flatten_cons, List.append_assoc]
    by_cases h1 : c = '"'
    · subst h1
      show parseStrAux (['\\', '"'] ++ _) = _
      unfold parseStrAux
      simp [escDecode, ih rest]
    · by_cases h2 : c = '\\'
      · subst h2
        show parseStrAux (['\\', '\\'] ++ _) = _
        unfold parseStrAux
        simp [escDecode, ih rest]
      · by_cases h3 : c = '\x08'
        · subst h3
          show parseStrAux (['\\', 'b'] ++ _) = _
          unfold parseStrAux
          simp [escDecode, ih rest]
        · by_cases h4 : c = '\x0c'
          · subst h4
            show parseStrAux (['\\', 'f'] ++ _) = _
            unfold parseStrAux
            simp [escDecode, ih rest]
          · by_cases h5 : c = '\n'
            · subst h5
              show parseStrAux (['\\', 'n'] ++ _) = _
              unfold parseStrAux
              simp [escDecode, ih rest]
            · by_cases h6 : c = '\r'
              · subst h6
                show parseStrAux (['\\', 'r'] ++ _) = _
                unfold parseStrAux
                simp [escDecode, ih rest]
              · by_cases h7 : c = '\t'
                · subst h7
                  show parseStrAux (['\\', 't'] ++ _) = _
                  unfold parseStrAux
                  simp [escDecode, ih rest]
                · by_cases h8 : c.toNat < 32
                  · have hesc : escapeChar c =
                        ['\\', 'u', '0', '0', hexCh (c.toNat / 16), hexCh (c.toNat % 16)] := by
                      unfold escapeChar
                      rw [if_neg h1, if_neg h2, if_neg h3, if_neg h4, if_neg h5, if_neg h6,
                        if_neg h7, if_pos h8]
                    rw [hesc]
                    have hh1 : hexVal (hexCh (c.toNat / 16)) = some (c.toNat / 16) :=
                      hexVal_hexCh _ (by omega)
                    have hh2 : hexVal (hexCh (c.toNat % 16)) = some (c.toNat % 16) :=
                      hexVal_hexCh _ (by omega)
                    have hzero : hexVal '0' = some 0 := by decide
                    show parseStrAux ('\\' :: 'u' :: '0' :: '0' :: hexCh (c.toNat / 16) ::
                      hexCh (c.toNat % 16) :: ((l.map escapeChar).flatten ++ '"' :: rest)) = _
                    unfold parseStrAux
                    simp only [reduceIte, hzero, hh1, hh2, ih rest, Option.map_some]
                    have harith : ((0 * 16 + 0) * 16 + c.toNat / 16) * 16 + c.toNat % 16 =
                        c.toNat := by omega
                    rw [harith, Char.ofNat_toNat]
                    simp
                  · have hesc : escapeChar c = [c] := by
                      unfold escapeChar
                      rw [if_neg h1, if_neg h2, if_neg h3, if_neg h4, if_neg h5, if_neg h6,
                        if_neg h7, if_neg h8]
                    rw [hesc]
                    show parseStrAux (c :: ((l.map escapeChar).flatten ++ '"' :: rest)) = _
                    unfold parseStrAux
                    simp [h1, h2, ih rest]

theorem mk_data (s : String) : String.mk s.data = s := rfl

theorem printChars_head_ne (d : Nat) (v : JValue) :
    ∃ c cs, printChars d v = c :: cs ∧ isJsWs c = false ∧ c ≠ ']' ∧ c ≠ '\x7d' := by
  cases v with
  | null => exact ⟨'n', _, rfl, rfl, by decide, by decide⟩
  | bool b => cases b with
    | true => exact ⟨'t', _, rfl, rfl, by decide, by decide⟩
    | false => exact ⟨'f', _, rfl, rfl, by decide, by decide⟩
  | num n =>
    show ∃ c cs, intChars n = c :: cs ∧ _
    unfold intChars
    by_cases hn : n < 0
    · rw [if_pos hn]
      exact ⟨'-', _, rfl, rfl, by decide, by decide⟩
    · rw [if_neg hn]
      obtain ⟨m, cs, heq, hm⟩ := natDigits_head n.natAbs
      have hd := digitCh_isDigit m hm
      exact ⟨_, _, heq, digit_not_ws _ hd, digit_ne_char _ _ hd (by decide),
        digit_ne_char _ _ hd (by decide)⟩
  | str s => exact ⟨'"', _, rfl, rfl, by decide, by decide⟩
  | arr es =>
    cases es with
    | nil => exact ⟨'[', _, rfl, rfl, by decide, by decide⟩
    | cons v vs => exact ⟨'[', _, rfl, rfl, by decide, by decide⟩
  | obj fs =>
    cases fs with
    | nil => exact ⟨'\x7b', _, rfl, rfl, by decide, by decide⟩
    | cons f fs => exact ⟨'\x7b', _, rfl, rfl, by decide, by decide⟩

theorem printItems_eq (d : Nat) (v : JValue) (vs : List JValue) :
    ∃ suff, printItems d (v :: vs) = indChars d ++ (printChars d v ++ suff) ∧
      noDigitHead suff = true ∧
      (vs = [] → suff = []) ∧
      (∀ w ws, vs = w :: ws → suff = ',' :: '\n' :: printItems d (w :: ws)) := by
  cases vs with
  | nil =>
    refine ⟨[], by simp [printItems], rfl, fun _ => rfl, fun w ws h => by cases h⟩
  | cons w ws =>
    refine ⟨',' :: '\n' :: printItems d (w :: ws), ?_, ?_, ?_, ?_⟩
    · simp [printItems]
    · rfl
    · intro h
      cases h
    · intro w2 ws2 h
      cases h
      rfl

theorem printFields_eq (d : Nat) (k : String) (v : JValue) (fs : List (String × JValue)) :
    ∃ suff, printFields d ((k, v) :: fs) =
      indChars d ++ (quoteChars k ++ ':' :: ' ' :: (printChars d v ++ suff)) ∧
      noDigitHead suff = true ∧
      (fs = [] → suff = []) ∧
      (∀ g gs, fs = g :: gs → suff = ',' :: '\n' :: printFields d (g :: gs)) := by
  cases fs with
  | nil =>
    refine ⟨[], by simp [printFields], rfl, fun _ => rfl, fun g gs h => by cases h⟩
  | cons g gs =>
    refine ⟨',' :: '\n' :: printFields d (g :: gs), ?_, ?_, ?_, ?_⟩
    · rcases g with ⟨k1, v1⟩
      simp [printFields]
    · rfl
    · intro h
      cases h
    · intro g2 gs2 h
      cases h
      rfl

theorem keyFresh_iff (k : String) (fs : List (String × JValue)) :
    keyFresh k fs = true ↔ ∀ kv ∈ fs, kv.1 ≠ k := by
  induction fs with
  | nil => simp [keyFresh]
  | cons g gs ih =>
    rcases g with ⟨k0, v0⟩
    simp [keyFresh, ih]

theorem keyFresh_append (k : String) (acc : List (String × JValue)) (k1 : String)
    (v1 : JValue) (h1 : keyFresh k acc = true) (h2 : k1 ≠ k) :
    keyFresh k (acc ++ [(k1, v1)]) = true := by
  rw [keyFresh_iff] at h1 ⊢
  intro kv hkv
  rcases List.mem_append.mp hkv with h | h
  · exact h1 kv h
  · simp at h
    rw [h]
    exact h2

theorem setField_fresh (fs : List (String × JValue)) (k : String) (v : JValue)
    (h : keyFresh k fs = true) : setField fs k v = fs ++ [(k, v)] := by
  induction fs with
  | nil => rfl
  | cons g gs ih =>
    rcases g with ⟨k0, v0⟩
    simp only [keyFresh, Bool.and_eq_true, decide_eq_true_eq] at h
    simp only [setField, if_neg h.1]
    rw [ih h.2]
    rfl

theorem sizeJ_pos (v : JValue) : 1 ≤ sizeJ v := by
  cases v <;> simp [sizeJ]

theorem parseJValue_null (fuel : Nat) (rest : List Char) :
    parseJValue (fuel + 1) (['n', 'u', 'l', 'l'] ++ rest) = some (.null, rest) := by
  unfold parseJValue
  rw [List.cons_append, skipWs_cons_of_not 'n' _ (by decide)]
  simp [stripPrefixChars]

theorem parseJValue_true (fuel : Nat) (rest : List Char) :
    parseJValue (fuel + 1) (['t', 'r', 'u', 'e'] ++ rest) = some (.bool true, rest) := by
  unfold parseJValue
  rw [List.cons_append, skipWs_cons_of_not 't' _ (by decide)]
  simp [stripPrefixChars]

theorem parseJValue_false (fuel : Nat) (rest : List Char) :
    parseJValue (fuel + 1) (['f', 'a', 'l', 's', 'e'] ++ rest) = some (.bool false, rest) := by
  unfold parseJValue
  rw [List.cons_append, skipWs_cons_of_not 'f' _ (by decide)]
  simp [stripPrefixChars]

theorem parseJValue_str (fuel : Nat) (s : String) (rest : List Char) :
    parseJValue (fuel + 1) (quoteChars s ++ rest) = some (.str s, rest) := by
  have hq : quoteChars s ++ rest =
      '"' :: ((s.data.map escapeChar).flatten ++ '"' :: rest) := by
    simp [quoteChars]
  rw [hq]
  unfold parseJValue
  rw [skipWs_cons_of_not '"' _ (by decide)]
  simp only [reduceIte]
  rw [parseStrAux_escape s.data rest]
  rfl

theorem parseJValue_num (fuel : Nat) (n : Int) (rest : List Char)
    (hrest : noDigitHead rest = true) :
    parseJValue (fuel + 1) (intChars n ++ rest) = some (.num n, rest) := by
  obtain ⟨m, ds, heq, hm⟩ := natDigits_head n.natAbs
  have hdig := digitCh_isDigit m hm
  have hpn := parseNatAux_natDigits n.natAbs rest hrest (digitCh m) ds heq
  by_cases hn : n < 0
  · have hint : intChars n = '-' :: natDigits n.natAbs := by
      unfold intChars
      rw [if_pos hn]
    rw [hint, List.cons_append]
    unfold parseJValue
    rw [skipWs_cons_of_not '-' _ (by decide)]
    dsimp only
    rw [if_neg (by decide), if_neg (by decide), if_neg (by decide), if_neg (by decide),
      if_neg (by decide), if_neg (by decide), if_pos rfl]
    rw [heq, List.cons_append]
    dsimp only
    simp only [hdig, if_true, hpn]
    have hneg : -(n.natAbs : Int) = n := by omega
    rw [hneg]
  · have hint : intChars n = natDigits n.natAbs := by
      unfold intChars
      rw [if_neg hn]
    rw [hint, heq, List.cons_append]
    unfold parseJValue
    rw [skipWs_cons_of_not _ _ (digit_not_ws _ hdig)]
    dsimp only
    rw [if_neg (digit_ne_char _ _ hdig (by decide)),
      if_neg (digit_ne_char _ _ hdig (by decide)),
      if_neg (digit_ne_char _ _ hdig (by decide)),
      if_neg (digit_ne_char _ _ hdig (by decide)),
      if_neg (digit_ne_char _ _ hdig (by decide)),
      if_neg (digit_ne_char _ _ hdig (by decide)),
      if_neg (digit_ne_char _ _ hdig (by decide))]
    simp only [hdig, if_true, hpn]
    have hpos : (n.natAbs : Int) = n := by omega
    rw [hpos]

theorem noDigitHead_append (xs ys : List Char) (hx : noDigitHead xs = true)
    (hy : noDigitHead ys = true) : noDigitHead (xs ++ ys) = true := by
  cases xs with
  | nil => exact hy
  | cons c cs => exact hx

theorem skipWs_quote (k : String) (cs : List Char) :
    quoteChars k ++ cs = '"' :: ((k.data.map escapeChar).flatten ++ ('"' :: cs)) := by
  simp [quoteChars]

mutual

/-- Printing a well-formed value and re-parsing it (with enough fuel)
returns the value, leaving the trailing input untouched. -/
theorem parse_printChars (fuel d : Nat) (v : JValue) (rest : List Char)
    (hwf : wfJ v = true) (hfuel : sizeJ v ≤ fuel) (hrest : noDigitHead rest = true) :
    parseJValue fuel (printChars d v ++ rest) = some (v, rest) := by
  cases fuel with
  | zero =>
    have := sizeJ_pos v
    omega
  | succ fuel =>
    cases v with
    | null => exact parseJValue_null fuel rest
    | bool b =>
      cases b with
      | true => exact parseJValue_true fuel rest
      | false => exact parseJValue_false fuel rest
    | num n => exact parseJValue_num fuel n rest hrest
    | str s => exact parseJValue_str fuel s rest
    | arr es =>
      cases es with
      | nil =>
        show parseJValue (fuel + 1) (['[', ']'] ++ rest) = _
        unfold parseJValue
        rw [List.cons_append, skipWs_cons_of_not '[' _ (by decide)]
        dsimp only
        rw [if_neg (by decide), if_pos rfl, List.cons_append,
          skipWs_cons_of_not ']' _ (by decide)]
        dsimp only
        rw [if_pos rfl]
        simp
      | cons v vs =>
        have hwl : wfList (v :: vs) = true := hwf
        obtain ⟨suff, hpi, hsuffnd, hnil, hcons⟩ := printItems_eq (d + 1) v vs
        obtain ⟨c2, cs2, hhead, hws2, hne1, hne2⟩ := printChars_head_ne (d + 1) v
        have hinput : printChars d (.arr (v :: vs)) ++ rest =
            '[' :: '\n' :: (printItems (d + 1) (v :: vs) ++
              '\n' :: (indChars d ++ (']' :: rest))) := by
          show ('[' :: '\n' :: (printItems (d + 1) (v :: vs) ++
            '\n' :: (indChars d ++ [']']))) ++ rest = _
          simp [List.append_assoc]
        rw [hinput]
        unfold parseJValue
        rw [skipWs_cons_of_not '[' _ (by decide)]
        dsimp only
        rw [if_neg (by decide), if_pos rfl]
        have hskip : skipWs ('\n' :: (printItems (d + 1) (v :: vs) ++
            '\n' :: (indChars d ++ (']' :: rest)))) =
            c2 :: (cs2 ++ (suff ++ ('\n' :: (indChars d ++ (']' :: rest))))) := by
          rw [skipWs_cons_of_ws '\n' _ (by decide), hpi]
          simp only [List.append_assoc]
          rw [skipWs_indent, skipWs_print (d + 1) v, hhead]
          simp only [List.cons_append, List.append_assoc]
        rw [hskip]
        dsimp only
        rw [if_neg hne1]
        have hcongr : parseElemsAux fuel []
            (c2 :: (cs2 ++ (suff ++ ('\n' :: (indChars d ++ (']' :: rest)))))) =
            parseElemsAux fuel [] (printItems (d + 1) (v :: vs) ++
              '\n' :: (indChars d ++ (']' :: rest))) := by
          apply parseElemsAux_congr_ws
          rw [skipWs_cons_of_not _ _ hws2, hpi]
          simp only [List.append_assoc]
          rw [skipWs_indent, skipWs_print (d + 1) v, hhead]
          simp only [List.cons_append, List.append_assoc]
        rw [hcongr]
        have hsz : sizeJ (.arr (v :: vs)) = 1 + sizeArr (v :: vs) := rfl
        have hit := parse_printItems fuel (d + 1) d (v :: vs) [] rest (by simp) hwl
          (by omega)
        simpa using hit
    | obj fs =>
      cases fs with
      | nil =>
        show parseJValue (fuel + 1) (['\x7b', '\x7d'] ++ rest) = _
        unfold parseJValue
        rw [List.cons_append, skipWs_cons_of_not '\x7b' _ (by decide)]
        dsimp only
        rw [if_pos rfl, List.cons_append, skipWs_cons_of_not '\x7d' _ (by decide)]
        dsimp only
        rw [if_pos rfl]
        simp
      | cons f fs =>
        rcases f with ⟨k, v⟩
        have hwl : wfFields ((k, v) :: fs) = true := hwf
        obtain ⟨suff, hpf, hsuffnd, hnil, hcons⟩ := printFields_eq (d + 1) k v fs
        have hinput : printChars d (.obj ((k, v) :: fs)) ++ rest =
            '\x7b' :: '\n' :: (printFields (d + 1) ((k, v) :: fs) ++
              '\n' :: (indChars d ++ ('\x7d' :: rest))) := by
          show ('\x7b' :: '\n' :: (printFields (d + 1) ((k, v) :: fs) ++
            '\n' :: (indChars d ++ ['\x7d']))) ++ rest = _
          simp [List.append_assoc]
        rw [hinput]
        unfold parseJValue
        rw [skipWs_cons_of_not '\x7b' _ (by decide)]
        dsimp only
        rw [if_pos rfl]
        have hskip : skipWs ('\n' :: (printFields (d + 1) ((k, v) :: fs) ++
            '\n' :: (indChars d ++ ('\x7d' :: rest)))) =
            '"' :: ((k.data.map escapeChar).flatten ++ ('"' :: (':' :: (' ' ::
              (printChars (d + 1) v ++
                (suff ++ ('\n' :: (indChars d ++ ('\x7d' :: rest))))))))) := by
          rw [skipWs_cons_of_ws '\n' _ (by decide), hpf]
          simp only [List.append_assoc, List.cons_append]
          rw [skipWs_indent, skipWs_quote]
          rw [skipWs_cons_of_not '"' _ (by decide)]
        rw [hskip]
        dsimp only
        rw [if_neg (by decide)]
        have hcongr : parseFieldsAux fuel []
            ('"' :: ((k.data.map escapeChar).flatten ++ ('"' :: (':' :: (' ' ::
              (printChars (d + 1) v ++
                (suff ++ ('\n' :: (indChars d ++ ('\x7d' :: rest)))))))))) =
            parseFieldsAux fuel [] (printFields (d + 1) ((k, v) :: fs) ++
              '\n' :: (indChars d ++ ('\x7d' :: rest))) := by
          apply parseFieldsAux_congr_ws
          rw [skipWs_cons_of_not '"' _ (by decide), hpf]
          simp only [List.append_assoc, List.cons_append]
          rw [skipWs_indent, skipWs_quote]
          rw [skipWs_cons_of_not '"' _ (by decide)]
        rw [hcongr]
        have hsz : sizeJ (.obj ((k, v) :: fs)) = 1 + sizeObj ((k, v) :: fs) := rfl
        have hit := parse_printFields fuel (d + 1) d ((k, v) :: fs) [] rest (by simp)
          hwl (fun kv _ => rfl) (by omega)
        simpa using hit

/-- Elements of a printed non-empty array re-parse onto the accumulator. -/
theorem parse_printItems (fuel d dcl : Nat) (es : List JValue) (acc : List JValue)
    (rest : List Char) (hne : es ≠ []) (hwf : wfList es = true)
    (hfuel : sizeArr es ≤ fuel) :
    parseElemsAux fuel acc (printItems d es ++ '\n' :: (indChars dcl ++ (']' :: rest))) =
      some (.arr (acc ++ es), rest) := by
  cases es with
  | nil => exact absurd rfl hne
  | cons v vs =>
    cases fuel with
    | zero =>
      have := sizeJ_pos v
      simp [sizeArr] at hfuel
    | succ fuel =>
      obtain ⟨suff, hpi, hsuffnd, hnil, hcons⟩ := printItems_eq d v vs
      have hwfv : wfJ v = true := by
        simp [wfList, Bool.and_eq_true] at hwf
        exact hwf.1
      have hwfvs : wfList vs = true := by
        simp [wfList, Bool.and_eq_true] at hwf
        exact hwf.2
      have hszv : sizeArr (v :: vs) = 1 + sizeJ v + sizeArr vs := rfl
      unfold parseElemsAux
      have hpj : parseJValue fuel (printItems d (v :: vs) ++
          '\n' :: (indChars dcl ++ (']' :: rest))) =
          some (v, suff ++ ('\n' :: (indChars dcl ++ (']' :: rest)))) := by
        rw [parseJValue_congr_ws fuel _
          (printChars d v ++ (suff ++ ('\n' :: (indChars dcl ++ (']' :: rest)))))
          (by
            rw [hpi]
            simp only [List.append_assoc]
            rw [skipWs_indent])]
        exact parse_printChars fuel d v _ hwfv (by omega)
          (noDigitHead_append _ _ hsuffnd rfl)
      rw [hpj]
      dsimp only
      cases vs with
      | nil =>
        rw [hnil rfl]
        have hsk : skipWs (([] : List Char) ++ '\n' :: (indChars dcl ++ (']' :: rest))) =
            ']' :: rest := by
          rw [List.nil_append, skipWs_cons_of_ws '\n' _ (by decide), skipWs_indent,
            skipWs_cons_of_not ']' _ (by decide)]
        rw [hsk]
        dsimp only
        rw [if_neg (by decide), if_pos rfl]
      | cons w ws =>
        rw [hcons w ws rfl]
        have hsk : skipWs ((',' :: '\n' :: printItems d (w :: ws)) ++
            '\n' :: (indChars dcl ++ (']' :: rest))) =
            ',' :: ('\n' :: (printItems d (w :: ws) ++
              '\n' :: (indChars dcl ++ (']' :: rest)))) := by
          simp only [List.cons_append]
          rw [skipWs_cons_of_not ',' _ (by decide)]
        rw [hsk]
        dsimp only
        rw [if_pos rfl]
        have hcongr : parseElemsAux fuel (acc ++ [v])
            ('\n' :: (printItems d (w :: ws) ++ '\n' :: (indChars dcl ++ (']' :: rest)))) =
            parseElemsAux fuel (acc ++ [v])
              (printItems d (w :: ws) ++ '\n' :: (indChars dcl ++ (']' :: rest))) := by
          apply parseElemsAux_congr_ws
          rw [skipWs_cons_of_ws '\n' _ (by decide)]
        rw [hcongr]
        have hit := parse_printItems fuel d dcl (w :: ws) (acc ++ [v]) rest (by simp)
          hwfvs (by
            have : sizeArr (w :: ws) = 1 + sizeJ w + sizeArr ws := rfl
            omega)
        rw [hit]
        simp

/-- Fields of a printed non-empty object re-parse onto the accumulator,
provided all keys are distinct and fresh for the accumulator. -/
theorem parse_printFields (fuel d dcl : Nat) (fs : List (String × JValue))
    (acc : List (String × JValue)) (rest : List Char) (hne : fs ≠ [])
    (hwf : wfFields fs = true) (hacc : ∀ kv ∈ fs, keyFresh kv.1 acc = true)
    (hfuel : sizeObj fs ≤ fuel) :
    parseFieldsAux fuel acc
      (printFields d fs ++ '\n' :: (indChars dcl ++ ('\x7d' :: rest))) =
      some (.obj (acc ++ fs), rest) := by
  cases fs with
  | nil => exact absurd rfl hne
  | cons f fs =>
    rcases f with ⟨k, v⟩
    cases fuel with
    | zero =>
      have := sizeJ_pos v
      simp [sizeObj] at hfuel
    | succ fuel =>
      obtain ⟨suff, hpf, hsuffnd, hnil, hcons⟩ := printFields_eq d k v fs
      have hw : keyFresh k fs = true ∧ wfJ v = true ∧ wfFields fs = true := by
        simp [wfFields, Bool.and_eq_true] at hwf
        exact ⟨hwf.1.1, hwf.1.2, hwf.2⟩
      have hszv : sizeObj ((k, v) :: fs) = 1 + sizeJ v + sizeObj fs := rfl
      unfold parseFieldsAux
      have hskip : skipWs (printFields d ((k, v) :: fs) ++
          '\n' :: (indChars dcl ++ ('\x7d' :: rest))) =
          '"' :: ((k.data.map escapeChar).flatten ++ ('"' :: (':' :: (' ' ::
            (printChars d v ++
              (suff ++ ('\n' :: (indChars dcl ++ ('\x7d' :: rest))))))))) := by
        rw [hpf]
        simp only [List.append_assoc, List.cons_append]
        rw [skipWs_indent, skipWs_quote]
        rw [skipWs_cons_of_not '"' _ (by decide)]
      rw [hskip]
      dsimp only
      rw [if_pos rfl]
      rw [parseStrAux_escape k.data]
      dsimp only
      rw [skipWs_cons_of_not ':' _ (by decide)]
      dsimp only
      rw [if_pos rfl]
      have hpj : parseJValue fuel (' ' :: (printChars d v ++
          (suff ++ ('\n' :: (indChars dcl ++ ('\x7d' :: rest)))))) =
          some (v, suff ++ ('\n' :: (indChars dcl ++ ('\x7d' :: rest)))) := by
        rw [parseJValue_congr_ws fuel _
          (printChars d v ++ (suff ++ ('\n' :: (indChars dcl ++ ('\x7d' :: rest)))))
          (by rw [skipWs_cons_of_ws ' ' _ (by decide)])]
        exact parse_printChars fuel d v _ hw.2.1 (by omega)
          (noDigitHead_append _ _ hsuffnd rfl)
      rw [hpj]
      dsimp only
      have hsf : setField acc (String.mk k.data) v = acc ++ [(k, v)] := by
        rw [mk_data]
        exact setField_fresh acc k v (hacc (k, v) (by simp))
      cases fs with
      | nil =>
        rw [hnil rfl]
        have hsk : skipWs (([] : List Char) ++
            '\n' :: (indChars dcl ++ ('\x7d' :: rest))) = '\x7d' :: rest := by
          rw [List.nil_append, skipWs_cons_of_ws '\n' _ (by decide), skipWs_indent,
            skipWs_cons_of_not '\x7d' _ (by decide)]
        rw [hsk]
        dsimp only
        rw [if_neg (by decide), if_pos rfl, hsf]
      | cons g gs =>
        rw [hcons g gs rfl]
        have hsk : skipWs ((',' :: '\n' :: printFields d (g :: gs)) ++
            '\n' :: (indChars dcl ++ ('\x7d' :: rest))) =
            ',' :: ('\n' :: (printFields d (g :: gs) ++
              '\n' :: (indChars dcl ++ ('\x7d' :: rest)))) := by
          simp only [List.cons_append]
          rw [skipWs_cons_of_not ',' _ (by decide)]
        rw [hsk]
        dsimp only
        rw [if_pos rfl, hsf]
        have hcongr : parseFieldsAux fuel (acc ++ [(k, v)])
            ('\n' :: (printFields d (g :: gs) ++
              '\n' :: (indChars dcl ++ ('\x7d' :: rest)))) =
            parseFieldsAux fuel (acc ++ [(k, v)])
              (printFields d (g :: gs) ++
                '\n' :: (indChars dcl ++ ('\x7d' :: rest))) := by
          apply parseFieldsAux_congr_ws
          rw [skipWs_cons_of_ws '\n' _ (by decide)]
        rw [hcongr]
        have hacc2 : ∀ kv ∈ g :: gs, keyFresh kv.1 (acc ++ [(k, v)]) = true := by
          intro kv hkv
          have hkne : kv.1 ≠ k := (keyFresh_iff k (g :: gs)).mp hw.1 kv hkv
          exact keyFresh_append kv.1 acc k v (hacc kv (List.mem_cons_of_mem _ hkv))
            (Ne.symm hkne)
        have hit := parse_printFields fuel d dcl (g :: gs) (acc ++ [(k, v)]) rest
          (by simp) hw.2.2 hacc2 (by
            have : sizeObj (g :: gs) = 1 + sizeJ g.2 + sizeObj gs := by
              rcases g with ⟨k2, v2⟩
              rfl
            omega)
        rw [hit]
        simp

end

theorem wfList_append (xs : List JValue) (v : JValue) (hx : wfList xs = true)
    (hv : wfJ v = true) : wfList (xs ++ [v]) = true := by
  induction xs with
  | nil =>
    simp only [List.nil_append, wfList, Bool.and_eq_true]
    exact ⟨hv, trivial⟩
  | cons w ws ih =>
    rw [List.cons_append]
    simp only [wfList, Bool.and_eq_true] at hx ⊢
    exact ⟨hx.1, ih hx.2⟩

theorem keyFresh_setField (k0 k : String) (fs : List (String × JValue)) (v : JValue)
    (hf : keyFresh k0 fs = true) (hne : k0 ≠ k) :
    keyFresh k0 (setField fs k v) = true := by
  induction fs with
  | nil =>
    simp only [setField, keyFresh, Bool.and_eq_true, decide_eq_true_eq, and_true]
    exact Ne.symm hne
  | cons f fs ih =>
    obtain ⟨k1, v1⟩ := f
    simp only [keyFresh, Bool.and_eq_true] at hf
    by_cases hk : k1 = k
    · rw [show setField ((k1, v1) :: fs) k v = (k1, v) :: fs from by simp [setField, hk]]
      simp only [keyFresh, Bool.and_eq_true]
      exact ⟨hf.1, hf.2⟩
    · rw [show setField ((k1, v1) :: fs) k v = (k1, v1) :: setField fs k v from by
        simp [setField, hk]]
      simp only [keyFresh, Bool.and_eq_true]
      exact ⟨hf.1, ih hf.2⟩

theorem wfFields_setField (acc : List (String × JValue)) (k : String) (v : JValue)
    (hacc : wfFields acc = true) (hv : wfJ v = true) :
    wfFields (setField acc k v) = true := by
  induction acc with
  | nil => simp [setField, wfFields, keyFresh, hv]
  | cons f fs ih =>
    obtain ⟨k0, v0⟩ := f
    simp only [wfFields, Bool.and_eq_true] at hacc
    obtain ⟨⟨h1, h2⟩, h3⟩ := hacc
    by_cases hk : k0 = k
    · rw [show setField ((k0, v0) :: fs) k v = (k0, v) :: fs from by simp [setField, hk]]
      simp only [wfFields, Bool.and_eq_true]
      exact ⟨⟨h1, hv⟩, h3⟩
    · rw [show setField ((k0, v0) :: fs) k v = (k0, v0) :: setField fs k v from by
        simp [setField, hk]]
      simp only [wfFields, Bool.and_eq_true]
      exact ⟨⟨keyFresh_setField k0 k fs v h1 hk, h2⟩, ih h3⟩

mutual

/-- Every value produced by the parser is well-formed (distinct object keys). -/
theorem parseJValue_wf (fuel : Nat) (cs : List Char) (v : JValue) (rest : List Char)
    (h : parseJValue fuel cs = some (v, rest)) : wfJ v = true := by
  cases fuel with
  | zero => simp [parseJValue] at h
  | succ fuel =>
    unfold parseJValue at h
    cases hs : skipWs cs with
    | nil => rw [hs] at h; simp at h
    | cons c cs1 =>
      rw [hs] at h
      dsimp only at h
      by_cases h1 : c = '\x7b'
      · rw [if_pos h1] at h
        cases hs2 : skipWs cs1 with
        | nil => rw [hs2] at h; simp at h
        | cons c2 cs2 =>
          rw [hs2] at h
          dsimp only at h
          by_cases h2 : c2 = '\x7d'
          · rw [if_pos h2] at h
            simp only [Option.some.injEq, Prod.mk.injEq] at h
            rw [← h.1]
            rfl
          · rw [if_neg h2] at h
            exact parseFieldsAux_wf fuel [] (c2 :: cs2) v rest h rfl
      · rw [if_neg h1] at h
        by_cases h2 : c = '['
        · rw [if_pos h2] at h
          cases hs2 : skipWs cs1 with
          | nil => rw [hs2] at h; simp at h
          | cons c2 cs2 =>
            rw [hs2] at h
            dsimp only at h
            by_cases h3 : c2 = ']'
            · rw [if_pos h3] at h
              simp only [Option.some.injEq, Prod.mk.injEq] at h
              rw [← h.1]
              rfl
            · rw [if_neg h3] at h
              exact parseElemsAux_wf fuel [] (c2 :: cs2) v rest h rfl
        · rw [if_neg h2] at h
          by_cases h3 : c = '"'
          · rw [if_pos h3] at h
            cases hps : parseStrAux cs1 with
            | none => rw [hps] at h; simp at h
            | some r =>
              rw [hps] at h
              obtain ⟨a, b⟩ := r
              simp only [Option.map_some', Option.some.injEq, Prod.mk.injEq] at h
              rw [← h.1]
              rfl
          · rw [if_neg h3] at h
            by_cases h4 : c = 't'
            · rw [if_pos h4] at h
              cases hsp : stripPrefixChars ['r', 'u', 'e'] cs1 with
              | none => rw [hsp] at h; simp at h
              | some cs2 =>
                rw [hsp] at h
                simp only [Option.some.injEq, Prod.mk.injEq] at h
                rw [← h.1]
                rfl
            · rw [if_neg h4] at h
              by_cases h5 : c = 'f'
              · rw [if_pos h5] at h
                cases hsp : stripPrefixChars ['a', 'l', 's', 'e'] cs1 with
                | none => rw [hsp] at h; simp at h
                | some cs2 =>
                  rw [hsp] at h
                  simp only [Option.some.injEq, Prod.mk.injEq] at h
                  rw [← h.1]
                  rfl
              · rw [if_neg h5] at h
                by_cases h6 : c = 'n'
                · rw [if_pos h6] at h
                  cases hsp : stripPrefixChars ['u', 'l', 'l'] cs1 with
                  | none => rw [hsp] at h; simp at h
                  | some cs2 =>
                    rw [hsp] at h
                    simp only [Option.some.injEq, Prod.mk.injEq] at h
                    rw [← h.1]
                    rfl
                · rw [if_neg h6] at h
                  by_cases h7 : c = '-'
                  · rw [if_pos h7] at h
                    cases cs1 with
                    | nil => simp at h
                    | cons c2 cs2 =>
                      dsimp only at h
                      by_cases h8 : isDigitCh c2 = true
                      · rw [if_pos h8] at h
                        simp only [Option.some.injEq, Prod.mk.injEq] at h
                        rw [← h.1]
                        rfl
                      · rw [if_neg h8] at h
                        simp at h
                  · rw [if_neg h7] at h
                    by_cases h8 : isDigitCh c = true
                    · rw [if_pos h8] at h
                      simp only [Option.some.injEq, Prod.mk.injEq] at h
                      rw [← h.1]
                      rfl
                    · rw [if_neg h8] at h
                      simp at h

/-- Array elements parsed onto a well-formed accumulator give a well-formed value. -/
theorem parseElemsAux_wf (fuel : Nat) (acc : List JValue) (cs : List Char) (v : JValue)
    (rest : List Char) (h : parseElemsAux fuel acc cs = some (v, rest))
    (hacc : wfList acc = true) : wfJ v = true := by
  cases fuel with
  | zero => simp [parseElemsAux] at h
  | succ fuel =>
    unfold parseElemsAux at h
    cases hp : parseJValue fuel cs with
    | none => rw [hp] at h; simp at h
    | some r =>
      obtain ⟨w, rest1⟩ := r
      rw [hp] at h
      dsimp only at h
      have hw : wfJ w = true := parseJValue_wf fuel cs w rest1 hp
      cases hs : skipWs rest1 with
      | nil => rw [hs] at h; simp at h
      | cons c cs2 =>
        rw [hs] at h
        dsimp only at h
        by_cases h1 : c = ','
        · rw [if_pos h1] at h
          exact parseElemsAux_wf fuel (acc ++ [w]) cs2 v rest h (wfList_append acc w hacc hw)
        · rw [if_neg h1] at h
          by_cases h2 : c = ']'
          · rw [if_pos h2] at h
            simp only [Option.some.injEq, Prod.mk.injEq] at h
            rw [← h.1]
            exact wfList_append acc w hacc hw
          · rw [if_neg h2] at h
            simp at h

/-- Object fields parsed onto a well-formed accumulator give a well-formed value. -/
theorem parseFieldsAux_wf (fuel : Nat) (acc : List (String × JValue)) (cs : List Char)
    (v : JValue) (rest : List Char) (h : parseFieldsAux fuel acc cs = some (v, rest))
    (hacc : wfFields acc = true) : wfJ v = true := by
  cases fuel with
  | zero => simp [parseFieldsAux] at h
  | succ fuel =>
    unfold parseFieldsAux at h
    cases hs : skipWs cs with
    | nil => rw [hs] at h; simp at h
    | cons c cs1 =>
      rw [hs] at h
      dsimp only at h
      by_cases h1 : c = '"'
      · rw [if_pos h1] at h
        cases hps : parseStrAux cs1 with
        | none => rw [hps] at h; simp at h
        | some r =>
          obtain ⟨k, cs2⟩ := r
          rw [hps] at h
          dsimp only at h
          cases hs2 : skipWs cs2 with
          | nil => rw [hs2] at h; simp at h
          | cons c2 cs3 =>
            rw [hs2] at h
            dsimp only at h
            by_cases h2 : c2 = ':'
            · rw [if_pos h2] at h
              cases hp : parseJValue fuel cs3 with
              | none => rw [hp] at h; simp at h
              | some r2 =>
                obtain ⟨w, rest1⟩ := r2
                rw [hp] at h
                dsimp only at h
                have hw : wfJ w = true := parseJValue_wf fuel cs3 w rest1 hp
                cases hs3 : skipWs rest1 with
                | nil => rw [hs3] at h; simp at h
                | cons c3 cs4 =>
                  rw [hs3] at h
                  dsimp only at h
                  by_cases h3 : c3 = ','
                  · rw [if_pos h3] at h
                    exact parseFieldsAux_wf fuel (setField acc (String.mk k) w) cs4 v rest h
                      (wfFields_setField acc (String.mk k) w hacc hw)
                  · rw [if_neg h3] at h
                    by_cases h4 : c3 = '\x7d'
                    · rw [if_pos h4] at h
                      simp only [Option.some.injEq, Prod.mk.injEq] at h
                      rw [← h.1]
                      exact wfFields_setField acc (String.mk k) w hacc hw
                    · rw [if_neg h4] at h
                      simp at h
            · rw [if_neg h2] at h
              simp at h
      · rw [if_neg h1] at h
        simp at h

end

theorem natDigits_length_pos (n : Nat) : 0 < (natDigits n).length := by
  unfold natDigits natDigitsAux
  by_cases h : n < 10
  · rw [if_pos h]
    simp
  · rw [if_neg h]
    simp

theorem intChars_length_pos (n : Int) : 0 < (intChars n).length := by
  unfold intChars
  by_cases h : n < 0
  · rw [if_pos h]
    simp
  · rw [if_neg h]
    exact natDigits_length_pos _

mutual

/-- The pretty-printed output is at least as long as the fuel the value needs. -/
theorem sizeJ_le_print (d : Nat) (v : JValue) : sizeJ v ≤ (printChars d v).length := by
  cases v with
  | null =>
    show sizeJ .null ≤ (['n', 'u', 'l', 'l'] : List Char).length
    simp [sizeJ]
  | bool b =>
    cases b with
    | true =>
      show sizeJ (.bool true) ≤ (['t', 'r', 'u', 'e'] : List Char).length
      simp [sizeJ]
    | false =>
      show sizeJ (.bool false) ≤ (['f', 'a', 'l', 's', 'e'] : List Char).length
      simp [sizeJ]
  | num n =>
    show 1 ≤ (intChars n).length
    exact intChars_length_pos n
  | str s =>
    show 1 ≤ (quoteChars s).length
    rw [show (quoteChars s).length = ((s.data.map escapeChar).flatten).length + 2 from by
      simp only [quoteChars, List.length_cons, List.length_append, List.length_nil]]
    omega
  | arr es =>
    cases es with
    | nil =>
      show sizeJ (.arr []) ≤ (['[', ']'] : List Char).length
      show 1 + sizeArr [] ≤ 2
      simp [sizeArr]
    | cons v vs =>
      have h := sizeArr_le_print (d + 1) (v :: vs)
      have hs : sizeJ (.arr (v :: vs)) = 1 + sizeArr (v :: vs) := rfl
      have hl : (printChars d (.arr (v :: vs))).length =
          (printItems (d + 1) (v :: vs)).length + (indChars d).length + 4 := by
        show ('[' :: '\n' :: (printItems (d + 1) (v :: vs) ++
          '\n' :: (indChars d ++ [']']))).length = _
        simp only [List.length_cons, List.length_append, List.length_nil]
        omega
      rw [hs, hl]
      omega
  | obj fs =>
    cases fs with
    | nil =>
      show sizeJ (.obj []) ≤ (['\x7b', '\x7d'] : List Char).length
      show 1 + sizeObj [] ≤ 2
      simp [sizeObj]
    | cons f fs =>
      have h := sizeObj_le_print (d + 1) (f :: fs)
      have hs : sizeJ (.obj (f :: fs)) = 1 + sizeObj (f :: fs) := rfl
      have hl : (printChars d (.obj (f :: fs))).length =
          (printFields (d + 1) (f :: fs)).length + (indChars d).length + 4 := by
        show ('\x7b' :: '\n' :: (printFields (d + 1) (f :: fs) ++
          '\n' :: (indChars d ++ ['\x7d']))).length = _
        simp only [List.length_cons, List.length_append, List.length_nil]
        omega
      rw [hs, hl]
      omega

/-- The printed members of an array are at least as long as their fuel, minus one. -/
theorem sizeArr_le_print (d : Nat) (es : List JValue) :
    sizeArr es ≤ (printItems d es).length + 1 := by
  cases es with
  | nil =>
    show sizeArr [] ≤ (([] : List Char)).length + 1
    simp [sizeArr]
  | cons v vs =>
    cases vs with
    | nil =>
      have h := sizeJ_le_print d v
      have hs : sizeArr [v] = 1 + sizeJ v + sizeArr [] := rfl
      have hz : sizeArr ([] : List JValue) = 0 := rfl
      have hl : (printItems d [v]).length =
          (indChars d).length + (printChars d v).length := by
        show (indChars d ++ printChars d v).length = _
        simp only [List.length_append]
      rw [hs, hz, hl]
      omega
    | cons w ws =>
      have h1 := sizeJ_le_print d v
      have h2 := sizeArr_le_print d (w :: ws)
      have hs : sizeArr (v :: w :: ws) = 1 + sizeJ v + sizeArr (w :: ws) := rfl
      have hl : (printItems d (v :: w :: ws)).length =
          (indChars d).length + (printChars d v).length + 2 +
            (printItems d (w :: ws)).length := by
        show (indChars d ++ printChars d v ++
          ',' :: '\n' :: printItems d (w :: ws)).length = _
        simp only [List.length_append, List.length_cons]
        omega
      rw [hs, hl]
      omega

/-- The printed fields of an object are at least as long as their fuel, minus one. -/
theorem sizeObj_le_print (d : Nat) (fs : List (String × JValue)) :
    sizeObj fs ≤ (printFields d fs).length + 1 := by
  cases fs with
  | nil =>
    show sizeObj [] ≤ (([] : List Char)).length + 1
    simp [sizeObj]
  | cons f fs =>
    obtain ⟨k, v⟩ := f
    cases fs with
    | nil =>
      have h := sizeJ_le_print d v
      have hs : sizeObj [(k, v)] = 1 + sizeJ v + sizeObj [] := rfl
      have hz : sizeObj ([] : List (String × JValue)) = 0 := rfl
      have hl : (printFields d [(k, v)]).length =
          (indChars d).length + (quoteChars k).length + 2 + (printChars d v).length := by
        show (indChars d ++ quoteChars k ++ ':' :: ' ' :: printChars d v).length = _
        simp only [List.length_append, List.length_cons]
        omega
      rw [hs, hz, hl]
      omega
    | cons g gs =>
      have h1 := sizeJ_le_print d v
      have h2 := sizeObj_le_print d (g :: gs)
      have hs : sizeObj ((k, v) :: g :: gs) = 1 + sizeJ v + sizeObj (g :: gs) := rfl
      have hl : (printFields d ((k, v) :: g :: gs)).length =
          (indChars d).length + (quoteChars k).length + 2 + (printChars d v).length +
            2 + (printFields d (g :: gs)).length := by
        show (indChars d ++ quoteChars k ++ ':' :: ' ' :: printChars d v ++
          ',' :: '\n' :: printFields d (g :: gs)).length = _
        simp only [List.length_append, List.length_cons]
        omega
      rw [hs, hl]
      omega

end

/-- C9: for every input that parses as structured data, pretty-printing the
decoded value with the disclosure-block printer (`JSON.stringify(v, null, 2)`,
source lines 154-167) and re-parsing the resulting text yields a value
deep-equal to the original decode. -/
theorem C9_pretty_roundtrip (s : String) (v : JValue) (h : parseJson s = some v) :
    parseJson (stringifyPretty v) = some v := by
  have hwf : wfJ v = true := by
    unfold parseJson at h
    cases hp : parseJValue (s.data.length + 1) s.data with
    | none => rw [hp] at h; simp at h
    | some r =>
      obtain ⟨w, rest⟩ := r
      rw [hp] at h
      dsimp only at h
      by_cases hsw : skipWs rest = []
      · rw [if_pos hsw] at h
        simp only [Option.some.injEq] at h
        rw [← h]
        exact parseJValue_wf _ _ _ _ hp
      · rw [if_neg hsw] at h
        simp at h
  unfold parseJson stringifyPretty
  rw [data_mk]
  have hr := parse_printChars ((printChars 0 v).length + 1) 0 v [] hwf
    (le_trans (sizeJ_le_print 0 v) (by omega)) rfl
  rw [List.append_nil] at hr
  rw [hr]
  dsimp only
  rw [if_pos (show skipWs ([] : List Char) = [] from rfl)]

theorem C9_pretty_roundtrip_witness :
    parseJson "\x7b\"a\": 1\x7d" = some (JValue.obj [("a", JValue.num 1)]) ∧
    parseJson (stringifyPretty (JValue.obj [("a", JValue.num 1)])) =
      some (JValue.obj [("a", JValue.num 1)]) :=
  ⟨rfl, C9_pretty_roundtrip "\x7b\"a\": 1\x7d" (JValue.obj [("a", JValue.num 1)]) rfl⟩
